import Mathlib

/-!
# mini-rv32ima host shell: a shallow embedding

This development embeds the host side of `mini-rv32ima.c` (the console
renderer, the keyboard back ends, the MMIO and post-exec hooks, the image
loader and the main loop) as Lean functions and proves properties of them.

Conventions.
* `uint32_t` and `uint64_t` values are natural numbers; every operation that
  can leave the range is followed by an explicit reduction (`toU32`, `toU64`).
* `int` and `long long` values are integers. A conversion to `int` and every
  arithmetic operation on `int` operands of the console renderer is followed by
  `toI32`, which gives the two's-complement value a 32-bit machine computes. C
  leaves a signed overflow undefined, so a theorem that speaks of such a result
  carries hypotheses under which the exact result is an `int` and `toI32` does
  not change it.
* Operating-system calls whose result the program cannot predict
  (`GetAsyncKeyState`, `GetCursorPos`, `ToUnicodeEx`, `write`, the clock) are
  read from an explicit environment record.
* Drawing calls are recorded, in order, in a list of `GdiOp`.
-/

set_option maxRecDepth 100000

namespace MiniRV32

/-! ## Machine integers -/

/-- Reduction of an unbounded integer to the `uint32_t` it is stored as. -/
def toU32 (x : Int) : Nat := (x % 4294967296).toNat

/-- Reduction of an unbounded integer to the `uint64_t` it is stored as. -/
def toU64 (x : Int) : Nat := (x % 18446744073709551616).toNat

/-- Unsigned 32-bit wrap-around of a natural number. -/
def u32 (n : Nat) : Nat := n % 4294967296

/-- Conversion to a 32-bit `int`: the low 32 bits, read as two's complement.
It is also applied to the exact result of an `int` operation: it leaves a result
from -2^31 to 2^31 - 1 as it is (`toI32_eq_self`) and wraps any other around. -/
def toI32 (x : Int) : Int :=
  if x % 4294967296 < 2147483648 then x % 4294967296 else x % 4294967296 - 4294967296

/-! ## The hart state -/

/-- Modelled from the spec: `struct MiniRV32IMAState` is declared in
`mini-rv32ima.h`, which is not among the sources. The fields are the ones of
the data model (section 3) together with the members the source file itself
accesses (`regs`, `pc`, `cyclel`, `cycleh`, `timerl`, `timerh`, `timermatchl`,
`timermatchh`, `extraflags`). Every member is a `uint32_t`. -/
structure MiniRV32IMAState where
  regs : Fin 32 → Nat
  pc : Nat
  mstatus : Nat
  cyclel : Nat
  cycleh : Nat
  timerl : Nat
  timerh : Nat
  timermatchl : Nat
  timermatchh : Nat
  mscratch : Nat
  mtvec : Nat
  mie : Nat
  mip : Nat
  mepc : Nat
  mtval : Nat
  mcause : Nat
  reservation : Nat
  wfi : Bool
  extraflags : Nat
  deriving DecidableEq

/-- The 64-bit compare register `timermatchh:timermatchl` (mtimecmp). -/
def MiniRV32IMAState.mtimecmp (c : MiniRV32IMAState) : Nat :=
  c.timermatchh * 4294967296 + c.timermatchl

/-- The 64-bit timer `timerh:timerl`. -/
def MiniRV32IMAState.timer64 (c : MiniRV32IMAState) : Nat :=
  c.timerh * 4294967296 + c.timerl

/-- The 64-bit counter the main loop reaches through
`(uint64_t*)&core->cyclel`: `cyclel` is the low word and the member that
follows it, `cycleh`, the high word (little-endian host). -/
def MiniRV32IMAState.this_ccount (c : MiniRV32IMAState) : Nat :=
  c.cycleh * 4294967296 + c.cyclel

/-- A hart state with every member zero. -/
def zeroCore : MiniRV32IMAState :=
  { regs := fun _ => 0, pc := 0, mstatus := 0, cyclel := 0, cycleh := 0, timerl := 0,
    timerh := 0, timermatchl := 0, timermatchh := 0, mscratch := 0, mtvec := 0, mie := 0,
    mip := 0, mepc := 0, mtval := 0, mcause := 0, reservation := 0, wfi := false,
    extraflags := 0 }

/-! ## The console overlay (`print_text_gdi`) -/

/-- The two device contexts the program draws on. -/
inductive Dc
  | g_hdc
  | g_memdc
  deriving DecidableEq

/-- One recorded drawing call. -/
inductive GdiOp
  | FillRect (left top right bottom : Int)
  | BitBlt (dst : Dc) (x y w h : Int) (src : Dc) (sx sy : Int)
  | TextOutA (x y : Int) (c : Nat)
  deriving DecidableEq

/-- The globals of the console renderer. The members from `ansi_state` to
`g_max_cols` are `int` variables: they hold integers, and every value the
renderer computes for one of them, for a drawing coordinate or for an index of
`screen_buf` is reduced by `toI32`. `screen_buf` is never read by the program,
so it is kept as the list of stores made to it, newest first: each entry is the
`int` index written and the byte stored. `gdi` lists the drawing calls, newest
first. -/
structure Console where
  ansi_state : Int
  g_line : Int
  g_column : Int
  g_char_width : Int
  g_char_height : Int
  g_screen_width : Int
  g_screen_height : Int
  g_display_width : Int
  g_display_height : Int
  g_max_lines : Int
  g_max_cols : Int
  screen_buf : List (Int × Nat)
  gdi : List GdiOp
  deriving DecidableEq

/-- The C library `isdigit` on an `unsigned char`. -/
def isdigit (c : Nat) : Bool := decide (48 ≤ c) && decide (c ≤ 57)

/-- The inner `while (*q && (isdigit(*q) || *q == ';')) q++;` of
`print_text_gdi`: the argument is the text from `q` on, the result is the text
from the final `q` on. The end of the list stands for the terminating NUL. -/
def scanCsi : List Nat → List Nat
  | [] => []
  | q :: qs => if q ≠ 0 ∧ (isdigit q = true ∨ q = 59) then scanCsi qs else q :: qs

/-- The scroll block executed when `g_line >= g_max_lines`: the back-buffer
is moved up by one text line, the last line is cleared and `g_line` becomes
`g_max_lines - 1`. -/
def scrollUp (con : Console) : Console :=
  let sh := con.g_char_height
  { con with
    gdi := GdiOp.FillRect 0 (toI32 (con.g_screen_height - sh)) con.g_screen_width
        con.g_screen_height
      :: GdiOp.BitBlt Dc.g_memdc 0 0 con.g_screen_width (toI32 (con.g_screen_height - sh))
        Dc.g_memdc 0 sh
      :: con.gdi
    g_line := toI32 (con.g_max_lines - 1) }

/-- The `if (c == '\b')` block of `print_text_gdi`. The index of the store
is the `int` expression `g_line * g_max_cols + g_column`: a product and a sum,
each reduced to 32 bits. -/
def backspace (con : Console) : Console :=
  if con.g_column > 0 then
    let col := toI32 (con.g_column - 1)
    { con with
      g_column := col
      gdi := GdiOp.FillRect (toI32 (col * con.g_char_width))
        (toI32 (con.g_line * con.g_char_height))
        (toI32 (toI32 (col + 1) * con.g_char_width))
        (toI32 (toI32 (con.g_line + 1) * con.g_char_height)) :: con.gdi
      screen_buf := (toI32 (toI32 (con.g_line * con.g_max_cols) + col), 0) :: con.screen_buf }
  else con

/-- The `g_line++; g_column = 0; if (g_line >= g_max_lines) scroll` sequence
shared by the newline branch and the wrap-around branch. -/
def lineFeed (con : Console) : Console :=
  let con1 := { con with g_line := toI32 (con.g_line + 1), g_column := 0 }
  if con1.g_line ≥ con1.g_max_lines then scrollUp con1 else con1

/-- The "normal character handling" of `print_text_gdi` for a byte that is
neither swallowed by the escape filter nor a backspace. The `int` division
truncates toward zero; the index of the store is the `int` expression
`g_line * g_max_cols + g_column`: a product and a sum, each reduced to 32
bits. -/
def putChar (con : Console) (c : Nat) : Console :=
  if c = 13 then { con with g_column := 0 }
  else if c = 10 then lineFeed con
  else
    let max_cols := toI32 (Int.tdiv con.g_screen_width con.g_char_width)
    let con1 := if con.g_column ≥ max_cols then lineFeed con else con
    { con1 with
      screen_buf := (toI32 (toI32 (con1.g_line * con1.g_max_cols) + con1.g_column), c)
        :: con1.screen_buf
      gdi := GdiOp.TextOutA (toI32 (con1.g_column * con1.g_char_width))
        (toI32 (con1.g_line * con1.g_char_height)) c :: con1.gdi
      g_column := toI32 (con1.g_column + 1) }

/-- The escape filter at the head of the loop body. The result is the new
console and `true` when the body ends here with `continue`. -/
def ansiFilter (con : Console) (c : Nat) : Console × Bool :=
  if con.ansi_state = 0 then
    if c = 27 then ({ con with ansi_state := 1 }, true) else (con, false)
  else if con.ansi_state = 1 then
    if c = 91 then ({ con with ansi_state := 2 }, true)
    else ({ con with ansi_state := 0 }, false)
  else if con.ansi_state = 2 then
    if 64 ≤ c ∧ c ≤ 126 then ({ con with ansi_state := 0 }, true) else (con, true)
  else (con, false)

/-- The block that skips a stray CSI sequence such as `[1;30m` whose ESC was
lost. `c` is the current byte and `rest` the text after it. The result is
`some after` when the block ends with `p = q; continue;`, where `after` is the
text behind the final byte `*q`; it is `none` when control falls through. -/
def strayCsi (con : Console) (c : Nat) (rest : List Nat) : Option (List Nat) :=
  if con.ansi_state = 0 ∧ c = 91 then
    match scanCsi rest with
    | [] => none
    | q :: after => if q ≠ 0 ∧ 64 ≤ q ∧ q ≤ 126 then some after else none
  else none

/-- The `for` loop of `print_text_gdi` on the text from `p` on. The text ends
at the first zero byte (or at the end of the list). One unit of fuel is spent
per iteration; `none` means the fuel ran out. -/
def print_text_gdi_loop : Nat → Console → List Nat → Option Console
  | 0, _, _ => none
  | _ + 1, con, [] => some con
  | fuel + 1, con, c :: rest =>
    if c = 0 then some con
    else
      let r := ansiFilter con c
      if r.2 = true then print_text_gdi_loop fuel r.1 rest
      else
        match strayCsi r.1 c rest with
        | some after => print_text_gdi_loop fuel r.1 after
        | none =>
          if c = 8 then print_text_gdi_loop fuel (backspace r.1) rest
          else print_text_gdi_loop fuel (putChar r.1 c) rest

/-- The function `print_text_gdi(s)`. The loop runs at most once per byte of
`s`, so `s.length + 1` units of fuel always suffice
(`print_text_gdi_loop_some`). -/
def print_text_gdi (con : Console) (s : List Nat) : Console :=
  (print_text_gdi_loop (s.length + 1) con s).getD con

/-- The `int` value of the expression `g_max_lines * g_max_cols` that `main`
passes to `calloc` as the number of bytes of `screen_buf` (line 184). -/
def screen_buf_size (con : Console) : Int := toI32 (con.g_max_lines * con.g_max_cols)

/-- The cursor invariant of the console: at least one line and one column,
`g_max_cols` is `g_screen_width / g_char_width` for a positive character
width, the cursor is on a line of the buffer and at most one past its last
column, `ansi_state` is one of its three values, and the number of cells
`g_max_lines * g_max_cols` is at most `INT_MAX`. -/
def ConsoleInv (con : Console) : Prop :=
  1 ≤ con.g_max_lines ∧ 0 < con.g_char_width ∧
  con.g_max_cols = Int.tdiv con.g_screen_width con.g_char_width ∧ 1 ≤ con.g_max_cols ∧
  0 ≤ con.g_line ∧ con.g_line < con.g_max_lines ∧
  0 ≤ con.g_column ∧ con.g_column ≤ con.g_max_cols ∧
  (con.ansi_state = 0 ∨ con.ansi_state = 1 ∨ con.ansi_state = 2) ∧
  con.g_max_lines * con.g_max_cols ≤ 2147483647

/-- What a piece of `print_text_gdi` may do to the console `con` to reach
`con2`: the geometry is kept, and the `int` index of each store added to
`screen_buf` is the exact value `line * g_max_cols + col` for a line and a
column of the buffer. -/
def ConsoleStep (con con2 : Console) : Prop :=
  con2.g_max_lines = con.g_max_lines ∧ con2.g_max_cols = con.g_max_cols ∧
  con2.g_char_width = con.g_char_width ∧ con2.g_screen_width = con.g_screen_width ∧
  ∃ ws : List (Int × Nat), con2.screen_buf = ws ++ con.screen_buf ∧
    ∀ w ∈ ws, ∃ line col : Int, 0 ≤ line ∧ line < con.g_max_lines ∧
      0 ≤ col ∧ col < con.g_max_cols ∧ w.1 = line * con.g_max_cols + col

/-- A console of 46341 lines and 46341 columns of one pixel, cursor in the
last cell. The number of cells, 46341 * 46341 = 2147488281, is above `INT_MAX`
= 2147483647. -/
def wideConsole : Console :=
  { ansi_state := 0, g_line := 46340, g_column := 46340, g_char_width := 1, g_char_height := 1,
    g_screen_width := 46341, g_screen_height := 46341, g_display_width := 139023,
    g_display_height := 139023, g_max_lines := 46341, g_max_cols := 46341, screen_buf := [],
    gdi := [] }

/-- A console of ten columns and three lines, cursor at the origin. -/
def sampleConsole : Console :=
  { ansi_state := 0, g_line := 0, g_column := 0, g_char_width := 6, g_char_height := 12,
    g_screen_width := 60, g_screen_height := 36, g_display_width := 180,
    g_display_height := 108, g_max_lines := 3, g_max_cols := 10, screen_buf := [], gdi := [] }

/-! ## The keyboard back ends -/

/-- The two branches of the `#if defined(WINDOWS) || defined(WIN32) ||
defined(_WIN32)` block. -/
inductive Platform
  | windows
  | posix
  deriving DecidableEq

/-- The keyboard variables of both back ends: `g_kbPending` and `g_kbValue`
(Windows), `is_eofd` (POSIX), and, for the POSIX branch, the bytes that wait on
standard input (what `ioctl(FIONREAD)` counts and `read` takes from). -/
structure Keyboard where
  g_kbPending : Int
  g_kbValue : Int
  is_eofd : Int
  stdin : List Nat
  deriving DecidableEq

/-- What the operating system answers during one hook call.
`GetAsyncKeyState vk` is the 16-bit pattern of the returned `SHORT`;
`cursor_x`, `cursor_y` is the position `GetCursorPos` reports;
`ToUnicodeEx vk shift` is the returned length and `bufUni[0]`, where `shift`
tells whether the shift bit was set in the key state passed in;
`stdin_write` is the result of `write(fileno(stdin), 0, 0)`;
`char_signed` tells whether plain `char` is signed;
`GetTimeMicroseconds` is the clock reading. -/
structure Env where
  GetAsyncKeyState : Nat → Nat
  cursor_x : Int
  cursor_y : Int
  ToUnicodeEx : Nat → Bool → Int × Nat
  stdin_write : Int
  char_signed : Bool
  GetTimeMicroseconds : Nat

/-- The function `IsHover()`. -/
def IsHover (env : Env) (con : Console) : Bool :=
  if env.cursor_x > toI32 (con.g_display_width - con.g_screen_width) ∧
      env.cursor_y < con.g_screen_height then true else false

/-- The value `IsKBHit` (Windows) stores in `g_kbValue` for the pressed
virtual key `vk`. `VK_OEM_MINUS` is 0xBD, `VK_SHIFT` 0x10, `VK_LEFT` 0x25,
`VK_UP` 0x26, `VK_RIGHT` 0x27, `VK_DOWN` 0x28. -/
def keyValue (env : Env) (vk : Nat) : Int :=
  if vk = 0xBD then
    if env.GetAsyncKeyState 0x10 &&& 0x8000 ≠ 0 then 95 else 45
  else
    let shift : Bool := decide (env.GetAsyncKeyState 0x10 &&& 0x8000 ≠ 0)
    let r := env.ToUnicodeEx vk shift
    if r.1 > 0 then ((r.2 % 65536 : Nat) : Int)
    else if vk = 0x25 then 8
    else if vk = 0x27 then 9
    else if vk = 0x26 then 27
    else if vk = 0x28 then 10
    else -1

/-- The `for (vk ...)` loop of `IsKBHit` (Windows) over the virtual keys still
to poll: the value for the first key found pressed while the cursor hovers.
`VK_SHIFT`, `VK_LSHIFT` (0xA0) and `VK_RSHIFT` (0xA1) are skipped. -/
def pollKeys (env : Env) (con : Console) : List Nat → Option Int
  | [] => none
  | vk :: vks =>
    if vk = 0x10 ∨ vk = 0xA0 ∨ vk = 0xA1 then pollKeys env con vks
    else if env.GetAsyncKeyState vk &&& 1 ≠ 0 ∧ IsHover env con = true then
      some (keyValue env vk)
    else pollKeys env con vks

/-- The function `IsKBHit()` of the Windows branch. -/
def IsKBHit_windows (env : Env) (con : Console) (kb : Keyboard) : Keyboard × Int :=
  if kb.g_kbPending ≠ 0 then (kb, 1)
  else
    match pollKeys env con (List.range' 8 248) with
    | some v => ({ kb with g_kbValue := v, g_kbPending := 1 }, 1)
    | none => (kb, 0)

/-- The function `ReadKBByte()` of the Windows branch. -/
def ReadKBByte_windows (kb : Keyboard) : Keyboard × Int :=
  if kb.g_kbPending = 0 then (kb, -1)
  else ({ kb with g_kbPending := 0 }, kb.g_kbValue)

/-- The function `IsKBHit()` of the POSIX branch. -/
def IsKBHit_posix (env : Env) (kb : Keyboard) : Keyboard × Int :=
  if kb.is_eofd ≠ 0 then (kb, -1)
  else
    let byteswaiting : Int := kb.stdin.length
    if byteswaiting = 0 ∧ env.stdin_write ≠ 0 then ({ kb with is_eofd := 1 }, -1)
    else (kb, if byteswaiting ≠ 0 then 1 else 0)

/-- The function `ReadKBByte()` of the POSIX branch. `read` takes the first
waiting byte; with nothing waiting it does not return a positive count. -/
def ReadKBByte_posix (env : Env) (kb : Keyboard) : Keyboard × Int :=
  if kb.is_eofd ≠ 0 then (kb, toI32 0xffffffff)
  else
    match kb.stdin with
    | [] => (kb, -1)
    | b :: bs =>
      ({ kb with stdin := bs },
        if env.char_signed = true ∧ b % 256 ≥ 128 then (b % 256 : Nat) - 256 else (b % 256 : Nat))

/-- The function `IsKBHit()` as compiled for `plat`. -/
def IsKBHit (plat : Platform) (env : Env) (con : Console) (kb : Keyboard) : Keyboard × Int :=
  match plat with
  | Platform.windows => IsKBHit_windows env con kb
  | Platform.posix => IsKBHit_posix env kb

/-- The function `ReadKBByte()` as compiled for `plat`. -/
def ReadKBByte (plat : Platform) (env : Env) (kb : Keyboard) : Keyboard × Int :=
  match plat with
  | Platform.windows => ReadKBByte_windows kb
  | Platform.posix => ReadKBByte_posix env kb

/-- The keyboard at program start: nothing pending, `g_kbValue` is -1. -/
def initKeyboard : Keyboard :=
  { g_kbPending := 0, g_kbValue := -1, is_eofd := 0, stdin := [] }

/-- An environment in which no key is down, the cursor is over the overlay and
standard input is open. -/
def quietEnv : Env :=
  { GetAsyncKeyState := fun _ => 0, cursor_x := 150, cursor_y := 5,
    ToUnicodeEx := fun _ _ => (0, 0), stdin_write := 0, char_signed := true,
    GetTimeMicroseconds := 0 }

/-- The environment `quietEnv` with the function key F1 (`VK_F1`, 0x70)
pressed since the last poll; `ToUnicodeEx` has no character for it. -/
def f1Env : Env :=
  { quietEnv with GetAsyncKeyState := fun vk => if vk = 0x70 then 0x8001 else 0 }

/-- The environment `quietEnv` with the key A (virtual key 0x41) pressed
since the last poll; `ToUnicodeEx` translates it to the letter a. -/
def keyAEnv : Env :=
  { quietEnv with
    GetAsyncKeyState := fun vk => if vk = 0x41 then 0x8001 else 0
    ToUnicodeEx := fun vk _ => if vk = 0x41 then (1, 97) else (0, 0) }

/-- The environment `quietEnv` with standard input closed: `write` on it
fails. -/
def closedEnv : Env := { quietEnv with stdin_write := -1 }

/-! ## The store hook -/

/-- The state the hooks work on: the hart state `*core`, the console and the
keyboard. -/
structure Host where
  core : MiniRV32IMAState
  con : Console
  kb : Keyboard
  deriving DecidableEq

/-- The function `HandleControlStore(addy, val)`: the new host state and the
returned value. -/
def HandleControlStore (h : Host) (addy val : Nat) : Host × Nat :=
  if addy = 0x10000000 then
    ({ h with con := print_text_gdi h.con [val % 256, 0] }, 0)
  else if addy = 0x11004004 then
    ({ h with core := { h.core with timermatchh := val } }, 0)
  else if addy = 0x11004000 then
    ({ h with core := { h.core with timermatchl := val } }, 0)
  else if addy = 0x11100000 then
    ({ h with core := { h.core with pc := u32 (h.core.pc + 4) } }, val)
  else (h, 0)

/-- The macro `MINIRV32_HANDLE_MEM_STORE_CONTROL(addy, val)`, expanded in the
step function: `some code` means the step returns `code` at once, `none` that
it goes on. -/
def MINIRV32_HANDLE_MEM_STORE_CONTROL (h : Host) (addy val : Nat) : Host × Option Nat :=
  let r := HandleControlStore h addy val
  if r.2 ≠ 0 then (r.1, some val) else (r.1, none)

/-! ## The load hook -/

/-- The function `HandleControlLoad(addy)`: the new host state and the
returned `uint32_t`. In `addy == 0x10000000 && IsKBHit()` the call is made only
for that address; `0x60 | IsKBHit()` is an `int` converted to `uint32_t`, which
is the bitwise or of 0x60 with the converted result. -/
def HandleControlLoad (plat : Platform) (env : Env) (h : Host) (addy : Nat) : Host × Nat :=
  if addy = 0x10000005 then
    let r := IsKBHit plat env h.con h.kb
    ({ h with kb := r.1 }, 0x60 ||| toU32 r.2)
  else
    let r : Keyboard × Int := if addy = 0x10000000 then IsKBHit plat env h.con h.kb else (h.kb, 0)
    if addy = 0x10000000 ∧ r.2 ≠ 0 then
      let k := ReadKBByte plat env r.1
      ({ h with kb := k.1 }, toU32 k.2)
    else if addy = 0x1100bffc then ({ h with kb := r.1 }, h.core.timerh)
    else if addy = 0x1100bff8 then ({ h with kb := r.1 }, h.core.timerl)
    else ({ h with kb := r.1 }, 0)

/-- A host whose hart has just been reset to the start of RAM. -/
def sampleHost : Host :=
  { core := { zeroCore with pc := 0x80000000, extraflags := 3 }, con := sampleConsole,
    kb := initKeyboard }

/-- The host `sampleHost` after 1024 cycles have been added to the cycle pair
while the timer pair stayed at zero. -/
def cycledHost : Host :=
  { sampleHost with core := { sampleHost.core with cyclel := 1024 } }

/-! ## The post-exec hook and the main loop -/

/-- The guest memory `ram_image`: the byte stored at each offset. Only the
offsets below `ram_amt` belong to the allocation. -/
abbrev Ram := Nat → Nat

/-- Modelled from the spec: `MINIRV32_RAM_IMAGE_OFFSET` is defined in
`mini-rv32ima.h`, which is not among the sources; guest physical address
0x80000000 maps to byte 0 of the image. -/
def MINIRV32_RAM_IMAGE_OFFSET : Nat := 0x80000000

/-- The bytes of an ASCII string literal. -/
def ascii (s : String) : List Nat := s.toList.map Char.toNat

/-- One lower-case hexadecimal digit. -/
def hexDigit (d : Nat) : Nat := if d < 10 then 48 + d else 87 + d

/-- The conversion `%08x` of a `uint32_t`. -/
def hex8 (v : Nat) : List Nat :=
  [28, 24, 20, 16, 12, 8, 4, 0].map (fun sh => hexDigit ((v >>> sh) % 16))

/-- The little-endian 32-bit word at byte offset `a` of the image. -/
def readWord (ram : Ram) (a : Nat) : Nat :=
  ram a % 256 + 256 * (ram (a + 1) % 256) + 65536 * (ram (a + 2) % 256)
    + 16777216 * (ram (a + 3) % 256)

/-- The function `HandleException(ir, code)`: its `if( code == 3 )` block is
empty, so it returns `code`. -/
def HandleException (_ir code : Nat) : Nat := code

/-- How a macro expanded in the step function ends: the step returns `code`
at once, or it goes on with the (possibly amended) `retval`. -/
inductive MacroExit
  | returns (code : Int)
  | goesOn (retval : Nat)
  deriving DecidableEq

/-- The macro `MINIRV32_POSTEXEC(pc, ir, retval)` with the global
`fail_on_all_faults`: what it prints and how it ends. `retval` is the
`uint32_t` trap value of the step function. -/
def MINIRV32_POSTEXEC (fail_on_all_faults : Int) (_pc ir retval : Nat) :
    List String × MacroExit :=
  if retval > 0 then
    if fail_on_all_faults ≠ 0 then (["FAULT\n"], MacroExit.returns 3)
    else ([], MacroExit.goesOn (HandleException ir retval))
  else ([], MacroExit.goesOn retval)

/-- One group of sixteen registers as `DumpState` prints it. -/
def dumpRegs (labels : List String) (vals : List Nat) : List Nat :=
  (List.intersperse [32]
    (List.zipWith (fun l v => ascii l ++ [58] ++ hex8 v) labels vals)).flatten

/-- The function `DumpState(core, ram_image)`, which prints three texts. -/
def DumpState (ram_amt : Nat) (ram : Ram) (h : Host) : Host :=
  let pc := h.core.pc
  let pc_offset := toU32 ((pc : Int) - MINIRV32_RAM_IMAGE_OFFSET)
  let inRam : Bool := decide (pc_offset < toU32 ((ram_amt : Int) - 3))
  let ir := if inRam = true then readWord ram pc_offset else 0
  let line1 := ascii "PC: " ++ hex8 pc ++ ascii " [" ++
    (if inRam = true then ascii "0x" else ascii "xxxx") ++ ascii "] " ++
    (if inRam = true then hex8 ir else ascii "xxxxxxxxxx")
  let con1 := print_text_gdi h.con (line1 ++ [0])
  let regs : List Nat := List.ofFn h.core.regs
  let con2 := print_text_gdi con1 (dumpRegs
    ["Z", "ra", "sp", "gp", "tp", "t0", "t1", "t2", "s0", "s1", "a0", "a1", "a2", "a3",
      "a4", "a5"] (regs.take 16) ++ [0])
  let con3 := print_text_gdi con2 (dumpRegs
    ["a6", "a7", "s2", "s3", "s4", "s5", "s6", "s7", "s8", "s9", "s10", "s11", "t3", "t4",
      "t5", "t6"] (regs.drop 16) ++ [0])
  { h with con := con3 }

/-- The function `MiniSleep()` as compiled for `plat`: on Windows it copies
the back-buffer to the desktop when the cursor hovers, on POSIX it only
sleeps. -/
def MiniSleep (plat : Platform) (env : Env) (con : Console) : Console :=
  match plat with
  | Platform.windows =>
    if IsHover env con = true then
      { con with gdi := (GdiOp.BitBlt Dc.g_hdc
          (toI32 (con.g_display_width - con.g_screen_width)) 0
          con.g_screen_width con.g_screen_height Dc.g_memdc 0 0) :: con.gdi }
    else con
  | Platform.posix => con

/-- The command-line settings the main loop reads. -/
structure LoopCfg where
  fixed_update : Int
  time_divisor : Int
  do_sleep : Int
  single_step : Int
  deriving DecidableEq

/-- The variables of `main` that live across iterations of the main loop,
with the host state and the image. `calls` counts the calls made to
`MiniRV32IMAStep` so far. -/
structure MainState where
  host : Host
  ram : Ram
  rt : Nat
  instct : Int
  lastTime : Nat
  calls : Nat

/-- How one pass through the `switch( ret )` of the main loop ends. -/
inductive SwitchExit
  | goesOn (st : MainState)
  | restart (st : MainState)
  | poweroff (st : MainState)

/-- How a run of the main loop ends: the loop condition became false, the
guest powered off (`return 0`), it asked for a restart (`goto restart`), or the
run was cut off after the given number of iterations. -/
inductive LoopExit
  | finished (st : MainState)
  | poweroff (st : MainState)
  | restart (st : MainState)
  | cutOff (st : MainState)

/-- The number of instructions per batch, `single_step ? 1 : 1024`. -/
def instrs_per_flip (cfg : LoopCfg) : Nat := if cfg.single_step ≠ 0 then 1 else 1024

/-- The loop condition `rt < instct+1 || instct < 0`, where `rt` is a
`uint64_t` and `instct` a `long long`, so the comparison is made in
`uint64_t`. -/
def mainLoopCond (rt : Nat) (instct : Int) : Bool :=
  decide (rt < toU64 (instct + 1)) || decide (instct < 0)

/-- The statement `switch( ret )` of the main loop. -/
def mainSwitch (plat : Platform) (cfg : LoopCfg) (env : Env) (ret : Int) (st : MainState) :
    SwitchExit :=
  if ret = 0 then SwitchExit.goesOn st
  else if ret = 1 then
    let con1 := if cfg.do_sleep ≠ 0 then MiniSleep plat env st.host.con else st.host.con
    let cc := (st.host.core.this_ccount + instrs_per_flip cfg) % 18446744073709551616
    SwitchExit.goesOn { st with host := { st.host with
      con := con1
      core := { st.host.core with cyclel := cc % 4294967296, cycleh := cc / 4294967296 } } }
  else if ret = 3 then SwitchExit.goesOn { st with instct := 0 }
  else if ret = 0x7777 then SwitchExit.restart st
  else if ret = 0x5555 then
    let buf := ascii "POWEROFF@0x" ++ hex8 st.host.core.cycleh ++ hex8 st.host.core.cyclel
    SwitchExit.poweroff { st with
      host := { st.host with con := print_text_gdi st.host.con (buf ++ [0]) } }
  else
    let msg := ascii "Unknown failure\n"
    SwitchExit.goesOn { st with
      host := { st.host with con := print_text_gdi st.host.con (msg ++ [0]) } }

/-- The body of the main loop up to and including the call of the step
function: the state after the call and the value `ret`. The step function
`MiniRV32IMAStep`, defined in `mini-rv32ima.h`, is a parameter: from the host
state, the image, the elapsed microseconds and the batch size it gives the new
host state and image and its return value. -/
def mainCallStep (cfg : LoopCfg)
    (MiniRV32IMAStep : Host → Ram → Nat → Nat → Host × Ram × Int)
    (ram_amt : Nat) (env : Env) (st : MainState) : MainState × Int :=
  let elapsedUs : Nat :=
    if cfg.fixed_update ≠ 0 then
      u32 (toU64 ((st.host.core.this_ccount / toU64 cfg.time_divisor : Nat) - (st.lastTime : Int)))
    else
      u32 (toU64 ((env.GetTimeMicroseconds / toU64 cfg.time_divisor : Nat) - (st.lastTime : Int)))
  let lastTime := (st.lastTime + elapsedUs) % 18446744073709551616
  let host1 := if cfg.single_step ≠ 0 then DumpState ram_amt st.ram st.host else st.host
  let r := MiniRV32IMAStep host1 st.ram elapsedUs (instrs_per_flip cfg)
  ({ st with host := r.1, ram := r.2.1, lastTime := lastTime, calls := st.calls + 1 }, r.2.2)

/-- The body of the main loop: the call of the step function, then the
`switch`. The wait `while(!IsHover()) Sleep(1);` that ends the body changes no
variable. -/
def mainBody (plat : Platform) (cfg : LoopCfg)
    (MiniRV32IMAStep : Host → Ram → Nat → Nat → Host × Ram × Int)
    (ram_amt : Nat) (env : Env) (st : MainState) : SwitchExit :=
  let r := mainCallStep cfg MiniRV32IMAStep ram_amt env st
  mainSwitch plat cfg env r.2 r.1

/-- The `for` loop of `main` from its next test of the condition on, run for
at most `fuel` iterations; `world i` is the environment of the `i`-th of
them. -/
def mainLoop (plat : Platform) (cfg : LoopCfg)
    (MiniRV32IMAStep : Host → Ram → Nat → Nat → Host × Ram × Int)
    (ram_amt : Nat) (world : Nat → Env) : Nat → MainState → LoopExit
  | 0, st => LoopExit.cutOff st
  | fuel + 1, st =>
    if mainLoopCond st.rt st.instct = true then
      match mainBody plat cfg MiniRV32IMAStep ram_amt (world fuel) st with
      | SwitchExit.goesOn st1 =>
        mainLoop plat cfg MiniRV32IMAStep ram_amt world fuel
          { st1 with rt := (st1.rt + instrs_per_flip cfg) % 18446744073709551616 }
      | SwitchExit.restart st1 => LoopExit.restart st1
      | SwitchExit.poweroff st1 => LoopExit.poweroff st1
    else LoopExit.finished st

/-- The number of calls to `MiniRV32IMAStep` at the end of a run. -/
def LoopExit.calls : LoopExit → Nat
  | LoopExit.finished st => st.calls
  | LoopExit.poweroff st => st.calls
  | LoopExit.restart st => st.calls
  | LoopExit.cutOff st => st.calls

/-- A step function that faults at once: it changes nothing and returns 3. -/
def faultingStep (h : Host) (ram : Ram) (_elapsedUs _count : Nat) : Host × Ram × Int :=
  (h, ram, 3)

/-- The default settings with `-s`: single stepping, no fixed time base. -/
def singleStepCfg : LoopCfg :=
  { fixed_update := 0, time_divisor := 1, do_sleep := 1, single_step := 1 }

/-- The default settings: batches of 1024 instructions. -/
def defaultCfg : LoopCfg :=
  { fixed_update := 0, time_divisor := 1, do_sleep := 1, single_step := 0 }

/-- The main loop state with `rt` at a given value, no instruction limit
(`instct` is -1), and an image of zero bytes. -/
def loopStateAt (rt : Nat) : MainState :=
  { host := sampleHost, ram := fun _ => 0, rt := rt, instct := -1, lastTime := 0, calls := 0 }

/-! ## Loading the image and resetting the hart -/

/-- Where `struct MiniRV32IMAState` keeps the members `main` writes at reset.
The struct is declared in `mini-rv32ima.h`, which is not among the sources, so
its size and the byte offsets of `regs`, `pc` and `extraflags` are
parameters. -/
structure StateLayout where
  size : Nat
  regs : Nat
  pc : Nat
  extraflags : Nat
  deriving DecidableEq

/-- A layout is well formed when the 32 registers, `pc` and `extraflags` lie
inside the struct and do not overlap. -/
def StateLayout.valid (L : StateLayout) : Prop :=
  L.regs + 128 ≤ L.size ∧ L.pc + 4 ≤ L.size ∧ L.extraflags + 4 ≤ L.size ∧
  (L.pc + 4 ≤ L.regs ∨ L.regs + 128 ≤ L.pc) ∧
  (L.extraflags + 4 ≤ L.regs ∨ L.regs + 128 ≤ L.extraflags) ∧
  (L.pc + 4 ≤ L.extraflags ∨ L.extraflags + 4 ≤ L.pc)

instance (L : StateLayout) : Decidable L.valid := by
  unfold StateLayout.valid; infer_instance

/-- The layout of the reference header: the 32 registers, then sixteen more
words of which `pc` is the first and `extraflags` the last; 192 bytes. -/
def referenceLayout : StateLayout := { size := 192, regs := 0, pc := 128, extraflags := 188 }

/-- The image after `bs` has been copied to offset `off` (`memcpy`, `fread`,
`strncpy`). -/
def memWrite (ram : Ram) (off : Nat) (bs : List Nat) : Ram :=
  fun i => if off ≤ i ∧ i < off + bs.length then bs.getD (i - off) 0 else ram i

/-- The image after `memset( ram_image, 0, n )`. -/
def memset0 (ram : Ram) (n : Nat) : Ram := fun i => if i < n then 0 else ram i

/-- The image after a little-endian store of the `uint32_t` `v` at offset `a`. -/
def writeWord (ram : Ram) (a v : Nat) : Ram :=
  memWrite ram a [v % 256, v / 256 % 256, v / 65536 % 256, v / 16777216 % 256]

/-- The 32-bit number whose big-endian encoding is at offset `a`. -/
def readWordBE (ram : Ram) (a : Nat) : Nat :=
  16777216 * (ram a % 256) + 65536 * (ram (a + 1) % 256) + 256 * (ram (a + 2) % 256)
    + ram (a + 3) % 256

/-- The little-endian word at offset `a` of a byte table. -/
def listWord (l : List Nat) (a : Nat) : Nat := readWord (fun i => l.getD i 0) a

/-- The bytes `strncpy( dst, src, n )` stores: the text of `src` up to its NUL,
cut at `n` bytes, then zero bytes up to `n`. -/
def strncpy (src : List Nat) (n : Nat) : List Nat :=
  let body := (src.takeWhile (fun b => b ≠ 0)).take n
  body ++ List.replicate (n - body.length) 0

/-- The expression `(validram>>24) | (((validram>>16)&0xff)<<8) |
(((validram>>8)&0xff)<<16) | ((validram&0xff)<<24)`. -/
def bswap32 (v : Nat) : Nat :=
  (v >>> 24) ||| (((v >>> 16) &&& 0xff) <<< 8) ||| (((v >>> 8) &&& 0xff) <<< 16)
    ||| ((v &&& 0xff) <<< 24)

/-- The `-b` option: no option (the built-in DTB is used), the word
`disable`, or a file name, with the contents of the file if it can be
opened. -/
inductive DtbOption
  | default
  | disable
  | file (contents : Option (List Nat))
  deriving DecidableEq

/-- How the load-and-reset sequence of `main` ends: the image is ready and
`dtb_ptr` has the given value; `main` returns an error code; or an access falls
outside the `ram_amt` bytes of `ram_image`, which C leaves undefined. -/
inductive LoadExit
  | loaded (ram : Ram) (dtb_ptr : Int)
  | exits (code : Int)
  | undefined

/-- Whether the sequence finished with the image ready. -/
def LoadExit.isLoaded : LoadExit → Bool
  | LoadExit.loaded _ _ => true
  | _ => false

/-- Whether the sequence ended with an access outside the image. -/
def LoadExit.isUndefined : LoadExit → Bool
  | LoadExit.undefined => true
  | _ => false

/-- The block that reads the image file (lines 259-280): `image` is the
contents of the file, `none` if it cannot be opened. `fread` of one item of
`flen` bytes returns 0 for an empty file. The block does not touch `dtb_ptr`;
the second component of its result is not used. -/
def loadImageFile (ram_amt : Nat) (image : Option (List Nat)) (ram : Ram) : LoadExit :=
  match image with
  | none => LoadExit.exits (-5)
  | some img =>
    if img.length > ram_amt then LoadExit.exits (-6)
    else
      let ram1 := memset0 ram ram_amt
      if img.length = 0 then LoadExit.exits (-7)
      else LoadExit.loaded (memWrite ram1 0 img) 0

/-- A copy of `bs` to `ram_image + off` for an `int` offset: undefined when
it leaves the image. The result keeps `dtb_ptr`. -/
def copyAt (ram_amt : Nat) (ram : Ram) (off : Int) (bs : List Nat) (dtb_ptr : Int) : LoadExit :=
  if 0 ≤ off ∧ off + bs.length ≤ ram_amt then LoadExit.loaded (memWrite ram off.toNat bs) dtb_ptr
  else LoadExit.undefined

/-- The block that places the DTB (lines 282-317). `dtb_ptr` is an `int`;
`default64mbdtb` is the table of `default64mbdtc.h`, which is not among the
sources; `kernel_command_line` is `none` for a null pointer. -/
def loadDtb (L : StateLayout) (ram_amt : Nat) (opt : DtbOption) (default64mbdtb : List Nat)
    (kernel_command_line : Option (List Nat)) (ram : Ram) (dtb_ptr : Int) : LoadExit :=
  match opt with
  | DtbOption.disable => LoadExit.loaded ram dtb_ptr
  | DtbOption.file none => LoadExit.exits (-5)
  | DtbOption.file (some d) =>
    let p := toI32 ((ram_amt : Int) - d.length - L.size)
    if d.length = 0 then
      if 0 ≤ p ∧ p ≤ ram_amt then LoadExit.exits (-9) else LoadExit.undefined
    else copyAt ram_amt ram p d p
  | DtbOption.default =>
    let p := toI32 ((ram_amt : Int) - default64mbdtb.length - L.size)
    match copyAt ram_amt ram p default64mbdtb p with
    | LoadExit.loaded ram1 _ =>
      match kernel_command_line with
      | some cmd => copyAt ram_amt ram1 (p + 0xc0) (strncpy cmd 54) p
      | none => LoadExit.loaded ram1 p
    | e => e

/-- The statements that reset the hart (lines 323-327): `core` points at the
last `sizeof( struct MiniRV32IMAState )` bytes of the image. -/
def resetCore (L : StateLayout) (ram_amt : Nat) (ram : Ram) (dtb_ptr : Int) : LoadExit :=
  if L.size ≤ ram_amt then
    let core := ram_amt - L.size
    let ram1 := writeWord ram (core + L.pc) MINIRV32_RAM_IMAGE_OFFSET
    let ram2 := writeWord ram1 (core + L.regs + 4 * 10) 0
    let ram3 := writeWord ram2 (core + L.regs + 4 * 11)
      (if dtb_ptr ≠ 0 then toU32 (dtb_ptr + MINIRV32_RAM_IMAGE_OFFSET) else 0)
    let ram4 := writeWord ram3 (core + L.extraflags) (readWord ram3 (core + L.extraflags) ||| 3)
    LoadExit.loaded ram4 dtb_ptr
  else LoadExit.undefined

/-- The block that patches the RAM size into the built-in DTB (lines
329-339). -/
def patchDtb (ram_amt : Nat) (opt : DtbOption) (ram : Ram) (dtb_ptr : Int) : LoadExit :=
  if opt = DtbOption.default then
    if 0 ≤ dtb_ptr ∧ dtb_ptr + 0x13c + 4 ≤ ram_amt then
      let a := dtb_ptr.toNat + 0x13c
      if readWord ram a = 0x00c0ff03 then
        let validram := toU32 dtb_ptr
        LoadExit.loaded (writeWord ram a (bswap32 validram)) dtb_ptr
      else LoadExit.loaded ram dtb_ptr
    else LoadExit.undefined
  else LoadExit.loaded ram dtb_ptr

/-- Lines 282-339 of `main`: the DTB is placed, the hart is reset and the
built-in DTB is patched. (`CaptureKeyboardInput` in between touches neither the
image nor `dtb_ptr`.) -/
def placeDtbAndReset (L : StateLayout) (ram_amt : Nat) (opt : DtbOption)
    (default64mbdtb : List Nat) (kernel_command_line : Option (List Nat)) (ram : Ram)
    (dtb_ptr : Int) : LoadExit :=
  match loadDtb L ram_amt opt default64mbdtb kernel_command_line ram dtb_ptr with
  | LoadExit.loaded ram1 p1 =>
    match resetCore L ram_amt ram1 p1 with
    | LoadExit.loaded ram2 p2 => patchDtb ram_amt opt ram2 p2
    | e => e
  | e => e

/-- The load-and-reset sequence of `main` from the label `restart` to the
start of the main loop (lines 257-339). `ram` is what `ram_image` holds on
entry and `dtb_ptr` the value of that variable on entry: 0 the first time, the
value of the previous pass after `goto restart`. -/
def loadAndReset (L : StateLayout) (ram_amt : Nat) (image : Option (List Nat))
    (opt : DtbOption) (default64mbdtb : List Nat) (kernel_command_line : Option (List Nat))
    (ram : Ram) (dtb_ptr : Int) : LoadExit :=
  match loadImageFile ram_amt image ram with
  | LoadExit.loaded ram1 _ =>
    placeDtbAndReset L ram_amt opt default64mbdtb kernel_command_line ram1 dtb_ptr
  | e => e

/-- The image a finished load-and-reset sequence leaves; the all-zero image
stands in when the sequence does not finish. -/
def LoadExit.ram : LoadExit → Ram
  | LoadExit.loaded ram _ => ram
  | _ => fun _ => 0

/-- The reset state of the hart as it lies in the last
`sizeof( struct MiniRV32IMAState )` bytes of the image: `pc` is 0x80000000,
`regs[10]` is 0, `regs[11]` is 0x80000000 + `dtb_ptr` (0 when `dtb_ptr` is 0),
`extraflags` is 3, and every byte of the struct outside `pc`, `regs[11]` and
`extraflags` is zero. -/
def ResetState (L : StateLayout) (ram_amt : Nat) (ram : Ram) (dtb_ptr : Nat) : Prop :=
  readWord ram (ram_amt - L.size + L.pc) = 0x80000000 ∧
  readWord ram (ram_amt - L.size + L.regs + 4 * 10) = 0 ∧
  readWord ram (ram_amt - L.size + L.regs + 4 * 11)
    = (if dtb_ptr = 0 then 0 else 0x80000000 + dtb_ptr) ∧
  readWord ram (ram_amt - L.size + L.extraflags) = 3 ∧
  ∀ i, ram_amt - L.size ≤ i → i < ram_amt →
    (i < ram_amt - L.size + L.pc ∨ ram_amt - L.size + L.pc + 4 ≤ i) →
    (i < ram_amt - L.size + L.regs + 4 * 11 ∨ ram_amt - L.size + L.regs + 4 * 11 + 4 ≤ i) →
    (i < ram_amt - L.size + L.extraflags ∨ ram_amt - L.size + L.extraflags + 4 ≤ i) →
    ram i = 0

/-- The DTB chosen by the option can be placed: the file opens and is not
empty, the built-in table has its word at 0x13c, and the table and the hart
state fit the image together. -/
def DtbOption.fits (opt : DtbOption) (default64mbdtb : List Nat) (L : StateLayout)
    (ram_amt : Nat) : Prop :=
  match opt with
  | DtbOption.default => 0x13c + 4 ≤ default64mbdtb.length ∧
      default64mbdtb.length + L.size ≤ ram_amt
  | DtbOption.disable => True
  | DtbOption.file none => False
  | DtbOption.file (some d) => 1 ≤ d.length ∧ d.length + L.size ≤ ram_amt

instance (opt : DtbOption) (default64mbdtb : List Nat) (L : StateLayout) (ram_amt : Nat) :
    Decidable (opt.fits default64mbdtb L ram_amt) := by
  unfold DtbOption.fits
  split <;> infer_instance

/-- The value the load-and-reset sequence gives `dtb_ptr` when the DTB fits:
0 when the DTB is disabled, else the offset directly below the hart state. -/
def DtbOption.ptr (opt : DtbOption) (default64mbdtb : List Nat) (L : StateLayout)
    (ram_amt : Nat) : Nat :=
  match opt with
  | DtbOption.default => ram_amt - default64mbdtb.length - L.size
  | DtbOption.disable => 0
  | DtbOption.file none => 0
  | DtbOption.file (some d) => ram_amt - d.length - L.size

/-- A built-in DTB of 0x140 bytes that is zero but for its last word, the
placeholder 0x00c0ff03 at offset 0x13c. -/
def sampleDtb : List Nat := List.replicate 0x13c 0 ++ [0x03, 0xff, 0xc0, 0x00]

/-! ## The debug CSRs -/

/-- The conversion `%d` of an `int`. -/
def decimal (x : Int) : List Nat :=
  if x < 0 then 45 :: (Nat.toDigits 10 x.natAbs).map Char.toNat
  else (Nat.toDigits 10 x.natAbs).map Char.toNat

/-- The loop `while (ptrend < ram_amt && image[ptrend]) ptrend++;` of
`HandleOtherCSRWrite`, started at `ptrend` with the list `reads` of the image
indices read so far (newest first): the final `ptrend` and the indices read.
One unit of fuel is spent per test of the condition; `none` means the fuel ran
out. -/
def csrStringEnd (ram_amt : Nat) (image : Ram) : Nat → Nat → List Nat → Option (Nat × List Nat)
  | 0, _, _ => none
  | fuel + 1, ptrend, reads =>
    if ptrend < ram_amt then
      if image ptrend % 256 ≠ 0 then
        csrStringEnd ram_amt image fuel (u32 (ptrend + 1)) (ptrend :: reads)
      else some (ptrend, ptrend :: reads)
    else some (ptrend, reads)

/-- What a call of `HandleOtherCSRWrite` leaves and does: the host state, the
image, the indices at which it read `image` and the indices at which it wrote
its local `buf[512]` (both newest first). -/
structure CsrWrite where
  host : Host
  image : Ram
  imageReads : List Nat
  bufWrites : List Nat

/-- The function `HandleOtherCSRWrite(image, csrno, value)` with the global
`ram_amt`. `snprintf` stores the converted text and its NUL; the scan for the
end of the string is given `ram_amt - ptrstart + 1` units of fuel, which always
suffice (`csrStringEnd_spec`). -/
def HandleOtherCSRWrite (ram_amt : Nat) (h : Host) (image : Ram) (csrno value : Nat) :
    CsrWrite :=
  if csrno = 0x136 then
    let buf := decimal (toI32 value) ++ [0]
    { host := { h with con := print_text_gdi h.con buf }, image := image, imageReads := [],
      bufWrites := (List.range buf.length).reverse }
  else if csrno = 0x137 then
    let buf := hex8 value ++ [0]
    { host := { h with con := print_text_gdi h.con buf }, image := image, imageReads := [],
      bufWrites := (List.range buf.length).reverse }
  else if csrno = 0x138 then
    let ptrstart := toU32 ((value : Int) - MINIRV32_RAM_IMAGE_OFFSET)
    if ptrstart ≥ ram_amt then
      let msg := ascii "DEBUG PASSED INVALID PTR"
      { host := { h with con := print_text_gdi h.con (msg ++ [0]) }, image := image,
        imageReads := [], bufWrites := [] }
    else
      match csrStringEnd ram_amt image (ram_amt - ptrstart + 1) ptrstart [] with
      | none => { host := h, image := image, imageReads := [], bufWrites := [] }
      | some (ptrend, reads) =>
        let len := ptrend - ptrstart
        if len > 0 then
          let copylen := if len < 512 - 1 then len else 512 - 1
          let copied := (List.range' ptrstart copylen).map (fun i => image i % 256)
          let buf := copied ++ [0]
          { host := { h with con := print_text_gdi h.con buf }, image := image,
            imageReads := (List.range' ptrstart copylen).reverse ++ reads,
            bufWrites := copylen :: (List.range copylen).reverse }
        else { host := h, image := image, imageReads := reads, bufWrites := [] }
  else if csrno = 0x139 then
    let buf := [value % 256, 0]
    { host := { h with con := print_text_gdi h.con buf }, image := image, imageReads := [],
      bufWrites := [1, 0] }
  else { host := h, image := image, imageReads := [], bufWrites := [] }

/-- An image of 16 bytes that holds the text "Hi" and its NUL at offset 4. -/
def hiImage : Ram := fun i => if i = 4 then 72 else if i = 5 then 105 else 0

/-! ## Reading numbers from the command line -/

/-- Conversion of a `uint64_t` to `int64_t`: the same 64 bits, read as two's
complement. -/
def toI64 (u : Nat) : Int :=
  if u % 18446744073709551616 < 9223372036854775808 then ((u % 18446744073709551616 : Nat) : Int)
  else ((u % 18446744073709551616 : Nat) : Int) - 18446744073709551616

/-- The C library `isspace` in the "C" locale: space, and the characters from
horizontal tab to carriage return. -/
def isspace (c : Nat) : Bool := decide (c = 32) || (decide (9 ≤ c) && decide (c ≤ 13))

/-- The value of a character as a digit for `strtoll`: `0`-`9`, then the
letters of either case for 10 to 35. -/
def digitVal (c : Nat) : Option Nat :=
  if 48 ≤ c ∧ c ≤ 57 then some (c - 48)
  else if 97 ≤ c ∧ c ≤ 122 then some (c - 87)
  else if 65 ≤ c ∧ c ≤ 90 then some (c - 55)
  else none

/-- Whether `c` is a digit valid in the given base. -/
def validDigit (base c : Nat) : Bool :=
  match digitVal c with
  | some v => decide (v < base)
  | none => false

/-- The digits `strtoll` converts: from the text, the value accumulated so far
and the number of digits taken so far, the value and the number of digits of
the longest run of valid digits. -/
def strtollDigits (base : Nat) : List Nat → Nat → Nat → Nat × Nat
  | [], acc, k => (acc, k)
  | c :: cs, acc, k =>
    match digitVal c with
    | some v => if v < base then strtollDigits base cs (acc * base + v) (k + 1) else (acc, k)
    | none => (acc, k)

/-- The optional `0x` or `0X` that `strtoll` accepts in base 16 in front of a
hexadecimal digit: the number of characters skipped and the text that is
left. -/
def skipHexPrefix (base : Nat) (s : List Nat) : Nat × List Nat :=
  if base = 16 then
    match s with
    | c0 :: x :: d :: t =>
      if c0 = 48 ∧ (x = 120 ∨ x = 88) ∧ validDigit 16 d = true then (2, d :: t) else (0, s)
    | _ => (0, s)
  else (0, s)

/-- The C library function `strtoll( nptr, &endptr, base )` for a base from 2
to 36, as the C standard describes it: white space is skipped, then an optional
sign, in base 16 an optional `0x`, then the longest run of valid digits is
converted; a value out of range is replaced by `LLONG_MAX` or `LLONG_MIN`. The
result is the value and `endptr - nptr`, which is 0 when there is no digit to
convert. The text ends at its NUL or at the end of the list. -/
def strtoll (nptr : List Nat) (base : Nat) : Int × Nat :=
  let ws := (nptr.takeWhile isspace).length
  let s1 := nptr.dropWhile isspace
  let neg : Bool := decide (s1.head? = some 45)
  let sgn : Nat := if s1.head? = some 45 ∨ s1.head? = some 43 then 1 else 0
  let s2 := s1.drop sgn
  let p := skipHexPrefix base s2
  let r := strtollDigits base p.2 0 0
  if r.2 = 0 then (0, 0)
  else
    let v : Int := if neg = true then -(r.1 : Int) else (r.1 : Int)
    let clamped : Int :=
      if v > 9223372036854775807 then 9223372036854775807
      else if v < -9223372036854775808 then -9223372036854775808
      else v
    (clamped, ws + sgn + p.1 + r.2)

/-- The end of `SimpleReadNumberInt`: the call of `strtoll` on the rest of the
text, the test `endptr == number`, and the return of the `uint64_t` `ret` as
`int64_t`. -/
def readNumberTail (number : List Nat) (radix : Nat) (defaultNumber : Int) : Int :=
  let r := strtoll number radix
  if r.2 = 0 then defaultNumber else toI64 (toU64 r.1)

/-- The function `SimpleReadNumberInt( number, defaultNumber )`; `none` is the
null pointer, and `number[i]` beyond the end of the list is the NUL. -/
def SimpleReadNumberInt (number : Option (List Nat)) (defaultNumber : Int) : Int :=
  match number with
  | none => defaultNumber
  | some s =>
    if s.getD 0 0 = 0 then defaultNumber
    else if s.getD 0 0 = 48 then
      let nc := s.getD 1 0
      if nc = 0 then 0
      else if nc = 120 then readNumberTail (s.drop 2) 16 defaultNumber
      else if nc = 98 then readNumberTail (s.drop 2) 2 defaultNumber
      else readNumberTail (s.drop 1) 8 defaultNumber
    else readNumberTail s 10 defaultNumber

/-- The character at which a number has to start for `strtoll`: the one
that follows the leading white space and one optional sign; `none` when the
text ends there. -/
def afterSpaceAndSign (s : List Nat) : Option Nat :=
  match s.dropWhile isspace with
  | [] => none
  | c :: t => if c = 45 ∨ c = 43 then t.head? else some c

/-- Whether the text, after leading white space and one optional sign, goes on
with a digit valid in the base. -/
def startsNumber (base : Nat) (s : List Nat) : Bool :=
  match afterSpaceAndSign s with
  | some c => validDigit base c
  | none => false

/-- The character of the digit `d`, with lower-case or upper-case letters for
the digits from ten on. -/
def digitChar (upper : Bool) (d : Nat) : Nat :=
  if d < 10 then 48 + d else if upper = true then 55 + d else 87 + d

/-- The digits of the numeral of `n` in base `b`, most significant first: the
single digit 0 for 0, otherwise no leading zero. -/
def numeralDigits (b n : Nat) : List Nat := if n = 0 then [0] else (Nat.digits b n).reverse

/-- The numeral of `n` in base `b` as text. -/
def numeral (upper : Bool) (b n : Nat) : List Nat := (numeralDigits b n).map (digitChar upper)

/-! ## Theorems -/

/-! ### The console -/

/-- The scan over CSI parameters never lengthens the text. -/
theorem scanCsi_length (l : List Nat) : (scanCsi l).length ≤ l.length := by
  induction l with
  | nil => simp [scanCsi]
  | cons q qs ih =>
    unfold scanCsi
    split_ifs
    · simp only [List.length_cons]; omega
    · exact le_refl _

/-- A skipped stray CSI sequence is non-empty: the text behind it is shorter
than the text it starts in. -/
theorem strayCsi_length (con : Console) (c : Nat) (rest after : List Nat)
    (h : strayCsi con c rest = some after) : after.length < rest.length := by
  unfold strayCsi at h
  have hl := scanCsi_length rest
  split_ifs at h
  split at h
  · exact absurd h (by simp)
  · rename_i q aft hq
    split_ifs at h
    rw [hq, List.length_cons] at hl
    cases h
    omega

/-- A value of the type `int` is left as it is by the reduction to 32
bits. -/
theorem toI32_eq_self (x : Int) (h0 : -2147483648 ≤ x) (h1 : x ≤ 2147483647) :
    toI32 x = x := by
  unfold toI32
  split_ifs <;> omega

/-- A cell index inside the buffer. -/
theorem cell_index_bound (line col L C : Int) (h0 : 0 ≤ line) (h1 : line < L)
    (h2 : 0 ≤ col) (h3 : col < C) : 0 ≤ line * C + col ∧ line * C + col < L * C := by
  have hC : 0 ≤ C := by omega
  have ha : 0 ≤ line * C := mul_nonneg h0 hC
  have hb : (line + 1) * C ≤ L * C := mul_le_mul_of_nonneg_right (by omega) hC
  have hc : (line + 1) * C = line * C + C := by ring
  constructor
  · omega
  · omega

/-- In a buffer of at most `INT_MAX` cells the `int` expression
`line * C + col` of a cell does not overflow. -/
theorem cell_index_exact (line col L C : Int) (h0 : 0 ≤ line) (h1 : line < L)
    (h2 : 0 ≤ col) (h3 : col < C) (hb : L * C ≤ 2147483647) :
    toI32 (toI32 (line * C) + col) = line * C + col := by
  obtain ⟨_, b⟩ := cell_index_bound line col L C h0 h1 h2 h3
  have hC : 0 ≤ C := by omega
  have ha : 0 ≤ line * C := mul_nonneg h0 hC
  rw [toI32_eq_self (line * C) (by omega) (by omega), toI32_eq_self _ (by omega) (by omega)]

/-- With at most `INT_MAX` cells, neither the number of lines nor the number
of columns exceeds `INT_MAX`. -/
theorem geometry_bound (L C : Int) (hL : 1 ≤ L) (hC : 1 ≤ C) (hb : L * C ≤ 2147483647) :
    L ≤ 2147483647 ∧ C ≤ 2147483647 := by
  have h1 : 0 ≤ (L - 1) * C := mul_nonneg (by omega) (by omega)
  have h2 : 0 ≤ L * (C - 1) := mul_nonneg (by omega) (by omega)
  have e1 : (L - 1) * C = L * C - C := by ring
  have e2 : L * (C - 1) = L * C - L := by ring
  constructor <;> omega

theorem ConsoleStep.refl (con : Console) : ConsoleStep con con :=
  ⟨rfl, rfl, rfl, rfl, [], by simp, by simp⟩

theorem ConsoleStep.trans {a b c : Console} (hab : ConsoleStep a b) (hbc : ConsoleStep b c) :
    ConsoleStep a c := by
  obtain ⟨l1, c1, w1, s1, ws1, e1, b1⟩ := hab
  obtain ⟨l2, c2, w2, s2, ws2, e2, b2⟩ := hbc
  refine ⟨l2.trans l1, c2.trans c1, w2.trans w1, s2.trans s1, ws2 ++ ws1, ?_, ?_⟩
  · rw [e2, e1, List.append_assoc]
  · intro w hw
    rcases List.mem_append.mp hw with hw | hw
    · have := b2 w hw
      rw [l1, c1] at this
      exact this
    · exact b1 w hw

/-- The line feed keeps the invariant, stores nothing and leaves the cursor in
column 0. -/
theorem lineFeed_ok (con : Console) (hi : ConsoleInv con) :
    ConsoleInv (lineFeed con) ∧ ConsoleStep con (lineFeed con) ∧
    (lineFeed con).g_column = 0 := by
  obtain ⟨h1, h2, h3, h4, h5, h6, h7, h8, h9, h10⟩ := hi
  obtain ⟨gL, gC⟩ := geometry_bound _ _ h1 h4 h10
  have e1 : toI32 (con.g_line + 1) = con.g_line + 1 := toI32_eq_self _ (by omega) (by omega)
  have e2 : toI32 (con.g_max_lines - 1) = con.g_max_lines - 1 :=
    toI32_eq_self _ (by omega) (by omega)
  unfold lineFeed
  simp only [e1]
  by_cases hge : con.g_line + 1 ≥ con.g_max_lines
  · simp only [hge, if_true, scrollUp, e2]
    refine ⟨⟨h1, h2, h3, h4, ?_, ?_, le_refl _, ?_, h9, h10⟩,
      ⟨rfl, rfl, rfl, rfl, [], by simp, by simp⟩, trivial⟩
    · show 0 ≤ con.g_max_lines - 1
      omega
    · show con.g_max_lines - 1 < con.g_max_lines
      omega
    · show (0 : Int) ≤ con.g_max_cols
      omega
  · simp only [hge, if_false]
    refine ⟨⟨h1, h2, h3, h4, ?_, ?_, le_refl _, ?_, h9, h10⟩,
      ⟨rfl, rfl, rfl, rfl, [], by simp, by simp⟩, trivial⟩
    · show 0 ≤ con.g_line + 1
      omega
    · show con.g_line + 1 < con.g_max_lines
      omega
    · show (0 : Int) ≤ con.g_max_cols
      omega

/-- The backspace block keeps the invariant and stores inside the buffer. -/
theorem backspace_ok (con : Console) (hi : ConsoleInv con) :
    ConsoleInv (backspace con) ∧ ConsoleStep con (backspace con) := by
  obtain ⟨h1, h2, h3, h4, h5, h6, h7, h8, h9, h10⟩ := hi
  obtain ⟨gL, gC⟩ := geometry_bound _ _ h1 h4 h10
  unfold backspace
  by_cases hc : con.g_column > 0
  · have e1 : toI32 (con.g_column - 1) = con.g_column - 1 :=
      toI32_eq_self _ (by omega) (by omega)
    have e2 : toI32 (toI32 (con.g_line * con.g_max_cols) + (con.g_column - 1))
        = con.g_line * con.g_max_cols + (con.g_column - 1) :=
      cell_index_exact _ _ _ _ h5 h6 (by omega) (by omega) h10
    simp only [hc, if_true, e1, e2]
    refine ⟨⟨h1, h2, h3, h4, h5, h6, ?_, ?_, h9, h10⟩, ⟨rfl, rfl, rfl, rfl,
      [(con.g_line * con.g_max_cols + (con.g_column - 1), 0)], rfl, ?_⟩⟩
    · show 0 ≤ con.g_column - 1
      omega
    · show con.g_column - 1 ≤ con.g_max_cols
      omega
    · intro w hw
      rw [List.mem_singleton] at hw
      subst hw
      exact ⟨con.g_line, con.g_column - 1, h5, h6, by omega, by omega, rfl⟩
  · simp only [hc, if_false]
    exact ⟨⟨h1, h2, h3, h4, h5, h6, h7, h8, h9, h10⟩, ConsoleStep.refl con⟩

/-- The normal character handling keeps the invariant and stores inside the
buffer. -/
theorem putChar_ok (con : Console) (c : Nat) (hi : ConsoleInv con) :
    ConsoleInv (putChar con c) ∧ ConsoleStep con (putChar con c) := by
  have hi0 := hi
  obtain ⟨h1, h2, h3, h4, h5, h6, h7, h8, h9, h10⟩ := hi
  obtain ⟨gL, gC⟩ := geometry_bound _ _ h1 h4 h10
  unfold putChar
  by_cases c13 : c = 13
  · simp only [c13, if_true]
    exact ⟨⟨h1, h2, h3, h4, h5, h6, le_refl _, by show (0 : Int) ≤ con.g_max_cols; omega, h9,
      h10⟩, ⟨rfl, rfl, rfl, rfl, [], by simp, by simp⟩⟩
  by_cases c10 : c = 10
  · simp only [c10, if_true]
    have := lineFeed_ok con hi0
    simp only [show ¬ ((10 : Nat) = 13) by decide, if_false]
    exact ⟨this.1, this.2.1⟩
  simp only [c13, c10, if_false]
  rw [← h3, toI32_eq_self con.g_max_cols (by omega) gC]
  by_cases hw : con.g_column ≥ con.g_max_cols
  · simp only [hw, if_true]
    obtain ⟨⟨k1, k2, k3, k4, k5, k6, k7, k8, k9, k10⟩, ⟨g1, g2, g3, g4, ws, e, b⟩, z⟩ :=
      lineFeed_ok con hi0
    have e1 : toI32 ((lineFeed con).g_column + 1) = (lineFeed con).g_column + 1 :=
      toI32_eq_self _ (by omega) (by omega)
    have e2 : toI32 (toI32 ((lineFeed con).g_line * (lineFeed con).g_max_cols)
        + (lineFeed con).g_column)
        = (lineFeed con).g_line * (lineFeed con).g_max_cols + (lineFeed con).g_column :=
      cell_index_exact _ _ _ _ k5 k6 (by omega) (by omega) k10
    rw [e1, e2]
    refine ⟨⟨k1, k2, k3, k4, k5, k6, ?_, ?_, k9, k10⟩, ⟨g1, g2, g3, g4,
      ((lineFeed con).g_line * (lineFeed con).g_max_cols + (lineFeed con).g_column, c) :: ws,
      ?_, ?_⟩⟩
    · show 0 ≤ (lineFeed con).g_column + 1
      omega
    · show (lineFeed con).g_column + 1 ≤ (lineFeed con).g_max_cols
      omega
    · show _ :: (lineFeed con).screen_buf = _
      rw [e]; rfl
    · intro w hw
      rcases List.mem_cons.mp hw with hw | hw
      · subst hw
        rw [← g1, ← g2]
        exact ⟨(lineFeed con).g_line, (lineFeed con).g_column, k5, k6, by omega, by omega, rfl⟩
      · exact b w hw
  · simp only [hw, if_false]
    have e1 : toI32 (con.g_column + 1) = con.g_column + 1 :=
      toI32_eq_self _ (by omega) (by omega)
    have e2 : toI32 (toI32 (con.g_line * con.g_max_cols) + con.g_column)
        = con.g_line * con.g_max_cols + con.g_column :=
      cell_index_exact _ _ _ _ h5 h6 h7 (by omega) h10
    rw [e1, e2]
    refine ⟨⟨h1, h2, h3, h4, h5, h6, ?_, ?_, h9, h10⟩, ⟨rfl, rfl, rfl, rfl,
      [(con.g_line * con.g_max_cols + con.g_column, c)], rfl, ?_⟩⟩
    · show 0 ≤ con.g_column + 1
      omega
    · show con.g_column + 1 ≤ con.g_max_cols
      omega
    · intro w hw
      rw [List.mem_singleton] at hw
      subst hw
      exact ⟨con.g_line, con.g_column, h5, h6, h7, by omega, rfl⟩

/-- The escape filter keeps the invariant and stores nothing. -/
theorem ansiFilter_ok (con : Console) (c : Nat) (hi : ConsoleInv con) :
    ConsoleInv (ansiFilter con c).1 ∧ ConsoleStep con (ansiFilter con c).1 := by
  obtain ⟨h1, h2, h3, h4, h5, h6, h7, h8, h9, h10⟩ := hi
  unfold ansiFilter
  split_ifs <;>
    exact ⟨⟨h1, h2, h3, h4, h5, h6, h7, h8, by first | exact h9 | simp, h10⟩,
      ⟨rfl, rfl, rfl, rfl, [], by simp, by simp⟩⟩

/-- With more fuel than bytes the loop of `print_text_gdi` returns, and the
console it returns keeps the invariant and has stored only inside the
buffer. -/
theorem print_text_gdi_loop_ok (fuel : Nat) :
    ∀ (s : List Nat) (con : Console), s.length < fuel → ConsoleInv con →
      ∃ con2, print_text_gdi_loop fuel con s = some con2 ∧ ConsoleInv con2 ∧
        ConsoleStep con con2 := by
  induction fuel with
  | zero => intro s con hlen; omega
  | succ fuel ih =>
    intro s con hlen hi
    cases s with
    | nil => exact ⟨con, rfl, hi, ConsoleStep.refl con⟩
    | cons c rest =>
      have hrest : rest.length < fuel := by simp only [List.length_cons] at hlen; omega
      unfold print_text_gdi_loop
      by_cases c0 : c = 0
      · simp only [c0, if_true]
        exact ⟨con, rfl, hi, ConsoleStep.refl con⟩
      simp only [c0, if_false]
      obtain ⟨fi, fs⟩ := ansiFilter_ok con c hi
      by_cases hcont : (ansiFilter con c).2 = true
      · simp only [hcont, if_true]
        obtain ⟨con2, e, i2, s2⟩ := ih rest _ hrest fi
        exact ⟨con2, e, i2, fs.trans s2⟩
      simp only [hcont, if_false]
      cases hsk : strayCsi (ansiFilter con c).1 c rest with
      | some after =>
        have hafter : after.length < fuel := by
          have hl := strayCsi_length _ _ _ _ hsk
          omega
        obtain ⟨con2, e, i2, s2⟩ := ih after _ hafter fi
        exact ⟨con2, e, i2, fs.trans s2⟩
      | none =>
        by_cases c8 : c = 8
        · simp only [c8, if_true]
          obtain ⟨bi, bs⟩ := backspace_ok _ fi
          obtain ⟨con2, e, i2, s2⟩ := ih rest _ hrest bi
          rw [c8] at e
          exact ⟨con2, e, i2, (fs.trans bs).trans s2⟩
        · simp only [c8, if_false]
          obtain ⟨bi, bs⟩ := putChar_ok _ c fi
          obtain ⟨con2, e, i2, s2⟩ := ih rest _ hrest bi
          exact ⟨con2, e, i2, (fs.trans bs).trans s2⟩

/-- With more fuel than bytes the loop of `print_text_gdi` returns, whatever
the console looks like. -/
theorem print_text_gdi_loop_some (fuel : Nat) :
    ∀ (s : List Nat) (con : Console), s.length < fuel →
      ∃ con2, print_text_gdi_loop fuel con s = some con2 := by
  induction fuel with
  | zero => intro s con hlen; omega
  | succ fuel ih =>
    intro s con hlen
    cases s with
    | nil => exact ⟨con, rfl⟩
    | cons c rest =>
      have hrest : rest.length < fuel := by simp only [List.length_cons] at hlen; omega
      unfold print_text_gdi_loop
      by_cases c0 : c = 0
      · simp only [c0, if_true]
        exact ⟨con, rfl⟩
      simp only [c0, if_false]
      by_cases hcont : (ansiFilter con c).2 = true
      · simp only [hcont, if_true]
        exact ih rest _ hrest
      simp only [hcont, if_false]
      cases hsk : strayCsi (ansiFilter con c).1 c rest with
      | some after =>
        have hl := strayCsi_length _ _ _ _ hsk
        exact ih after _ (by omega)
      | none =>
        by_cases c8 : c = 8
        · simp only [c8, if_true]
          have := ih rest (backspace (ansiFilter con 8).1) hrest
          rw [c8] at hsk
          exact this
        · simp only [c8, if_false]
          exact ih rest _ hrest

/-- One more unit of fuel does not change a result of the loop. -/
theorem print_text_gdi_loop_succ (fuel : Nat) :
    ∀ (s : List Nat) (con r : Console), print_text_gdi_loop fuel con s = some r →
      print_text_gdi_loop (fuel + 1) con s = some r := by
  induction fuel with
  | zero => intro s con r h; simp [print_text_gdi_loop] at h
  | succ fuel ih =>
    intro s con r h
    cases s with
    | nil => simpa [print_text_gdi_loop] using h
    | cons c rest =>
      rw [print_text_gdi_loop] at h ⊢
      by_cases c0 : c = 0
      · simpa [c0] using h
      simp only [c0, if_false] at h ⊢
      by_cases hcont : (ansiFilter con c).2 = true
      · simp only [hcont, if_true] at h ⊢
        exact ih _ _ _ h
      simp only [hcont, if_false] at h ⊢
      cases hsk : strayCsi (ansiFilter con c).1 c rest with
      | some after =>
        simp only [hsk] at h ⊢
        exact ih _ _ _ h
      | none =>
        simp only [hsk] at h ⊢
        by_cases c8 : c = 8
        · simp only [c8, if_true] at h ⊢
          exact ih _ _ _ h
        · simp only [c8, if_false] at h ⊢
          exact ih _ _ _ h

/-- Any larger amount of fuel gives the same result. -/
theorem print_text_gdi_loop_fuel (fuel k : Nat) (s : List Nat) (con r : Console)
    (h : print_text_gdi_loop fuel con s = some r) :
    print_text_gdi_loop (fuel + k) con s = some r := by
  induction k with
  | zero => exact h
  | succ k ih => exact print_text_gdi_loop_succ (fuel + k) s con r ih

/-- C10 (as stated, refuted): a console of 46341 lines and 46341 columns
with the cursor in the last cell meets every condition of the claim, but the
index `g_line * g_max_cols + g_column` of the store made for the letter a is
46340 * 46341 + 46340 = 2147488280, above `INT_MAX`: the `int` addition
overflows, the index the 32-bit arithmetic yields is -2147479016, which is no
index of the buffer, and the `int` product that sizes the buffer has overflowed
as well. -/
theorem print_text_gdi_index_overflows :
    (1 ≤ wideConsole.g_max_lines ∧ 0 < wideConsole.g_char_width ∧
      wideConsole.g_max_cols = Int.tdiv wideConsole.g_screen_width wideConsole.g_char_width ∧
      1 ≤ wideConsole.g_max_cols ∧
      (0 ≤ wideConsole.g_line ∧ wideConsole.g_line < wideConsole.g_max_lines) ∧
      (0 ≤ wideConsole.g_column ∧ wideConsole.g_column ≤ wideConsole.g_max_cols) ∧
      wideConsole.ansi_state = 0) ∧
    wideConsole.g_line * wideConsole.g_max_cols + wideConsole.g_column = 2147488280 ∧
    (2147483647 : Int) < wideConsole.g_line * wideConsole.g_max_cols + wideConsole.g_column ∧
    (print_text_gdi wideConsole [97, 0]).screen_buf = [(-2147479016, 97)] ∧
    (∃ w ∈ (print_text_gdi wideConsole [97, 0]).screen_buf,
      ¬ (0 ≤ w.1 ∧ w.1 < wideConsole.g_max_lines * wideConsole.g_max_cols)) ∧
    screen_buf_size wideConsole = -2147479015 ∧
    screen_buf_size wideConsole ≠ wideConsole.g_max_lines * wideConsole.g_max_cols := by
  decide

/-- C10 (amended): if `g_max_lines >= 1`, `g_char_width > 0`,
`g_max_cols = g_screen_width / g_char_width >= 1`, the number of cells
`g_max_lines * g_max_cols` is at most `INT_MAX` = 2^31 - 1, and
`0 <= g_line < g_max_lines` and `0 <= g_column <= g_max_cols` on entry, then for
every input text and every `ansi_state` in 0, 1, 2 the loop of `print_text_gdi`
returns (with any fuel above the length of the text, and always the same
console), the cursor bounds hold again on return, the geometry is unchanged,
the `int` product that sizes `screen_buf` is `g_max_lines * g_max_cols` without
overflow, and every store made to `screen_buf` has an index
`g_line * g_max_cols + g_column`, computed in `int`, that is the exact value of
that expression for a line and a column of the buffer (no overflow), hence at
least 0 and less than that size. -/
theorem print_text_gdi_in_bounds (con : Console) (s : List Nat)
    (hlines : 1 ≤ con.g_max_lines) (hcw : 0 < con.g_char_width)
    (hcols : con.g_max_cols = Int.tdiv con.g_screen_width con.g_char_width)
    (hcols1 : 1 ≤ con.g_max_cols)
    (hcells : con.g_max_lines * con.g_max_cols ≤ 2147483647)
    (hline : 0 ≤ con.g_line ∧ con.g_line < con.g_max_lines)
    (hcol : 0 ≤ con.g_column ∧ con.g_column ≤ con.g_max_cols)
    (hansi : con.ansi_state = 0 ∨ con.ansi_state = 1 ∨ con.ansi_state = 2) :
    (∀ fuel, s.length < fuel →
      print_text_gdi_loop fuel con s = some (print_text_gdi con s)) ∧
    (0 ≤ (print_text_gdi con s).g_line ∧
      (print_text_gdi con s).g_line < (print_text_gdi con s).g_max_lines) ∧
    (0 ≤ (print_text_gdi con s).g_column ∧
      (print_text_gdi con s).g_column ≤ (print_text_gdi con s).g_max_cols) ∧
    ((print_text_gdi con s).ansi_state = 0 ∨ (print_text_gdi con s).ansi_state = 1 ∨
      (print_text_gdi con s).ansi_state = 2) ∧
    (print_text_gdi con s).g_max_lines = con.g_max_lines ∧
    (print_text_gdi con s).g_max_cols = con.g_max_cols ∧
    screen_buf_size con = con.g_max_lines * con.g_max_cols ∧
    ∃ ws : List (Int × Nat), (print_text_gdi con s).screen_buf = ws ++ con.screen_buf ∧
      ∀ w ∈ ws,
        (∃ line col : Int, 0 ≤ line ∧ line < con.g_max_lines ∧ 0 ≤ col ∧ col < con.g_max_cols ∧
          w.1 = line * con.g_max_cols + col) ∧
        0 ≤ w.1 ∧ w.1 < con.g_max_lines * con.g_max_cols ∧ w.1 < screen_buf_size con := by
  have hi : ConsoleInv con :=
    ⟨hlines, hcw, hcols, hcols1, hline.1, hline.2, hcol.1, hcol.2, hansi, hcells⟩
  have hsize : screen_buf_size con = con.g_max_lines * con.g_max_cols := by
    have h0 : 0 ≤ con.g_max_lines * con.g_max_cols := mul_nonneg (by omega) (by omega)
    exact toI32_eq_self _ (by omega) hcells
  obtain ⟨con2, e, ⟨_, _, _, _, k5, k6, k7, k8, k9, _⟩, ⟨g1, g2, _, _, ws, ew, bw⟩⟩ :=
    print_text_gdi_loop_ok (s.length + 1) s con (Nat.lt_succ_self _) hi
  have hp : print_text_gdi con s = con2 := by simp [print_text_gdi, e]
  rw [hp]
  refine ⟨?_, ⟨k5, k6⟩, ⟨k7, k8⟩, k9, g1, g2, hsize, ws, ew, ?_⟩
  · intro fuel hf
    obtain ⟨k, rfl⟩ : ∃ k, fuel = s.length + 1 + k := ⟨fuel - (s.length + 1), by omega⟩
    exact print_text_gdi_loop_fuel _ k s con con2 e
  · intro w hw
    obtain ⟨line, col, a1, a2, a3, a4, a5⟩ := bw w hw
    obtain ⟨b1, b2⟩ := cell_index_bound line col _ _ a1 a2 a3 a4
    rw [← a5] at b1 b2
    exact ⟨⟨line, col, a1, a2, a3, a4, a5⟩, b1, b2, by rw [hsize]; exact b2⟩

/-- Witness for `print_text_gdi_in_bounds`: the text "hi", a line feed and
the terminating NUL on the sample console. -/
theorem print_text_gdi_in_bounds_witness :
    sampleConsole.g_max_lines * sampleConsole.g_max_cols ≤ 2147483647 ∧
    (0 ≤ (print_text_gdi sampleConsole [104, 105, 10, 0]).g_line ∧
      (print_text_gdi sampleConsole [104, 105, 10, 0]).g_line <
        (print_text_gdi sampleConsole [104, 105, 10, 0]).g_max_lines) ∧
    (0 ≤ (print_text_gdi sampleConsole [104, 105, 10, 0]).g_column ∧
      (print_text_gdi sampleConsole [104, 105, 10, 0]).g_column ≤
        (print_text_gdi sampleConsole [104, 105, 10, 0]).g_max_cols) ∧
    screen_buf_size sampleConsole = sampleConsole.g_max_lines * sampleConsole.g_max_cols :=
  let t := print_text_gdi_in_bounds sampleConsole [104, 105, 10, 0]
    (by decide) (by decide) (by decide) (by decide) (by decide) (by decide) (by decide)
    (by decide)
  ⟨by decide, t.2.1, t.2.2.1, t.2.2.2.2.2.2.1⟩

/-! ### The store hook -/

/-- C1 (as stated, refuted): a store of the value 0 to the SYSCON address
0x11100000 makes `HandleControlStore` return 0 although it has advanced
`core->pc` by 4. -/
theorem HandleControlStore_zero_syscon_moves_pc :
    (HandleControlStore sampleHost 0x11100000 0).2 = 0 ∧
    (HandleControlStore sampleHost 0x11100000 0).1.core.pc = 0x80000004 ∧
    (HandleControlStore sampleHost 0x11100000 0).1.core.pc ≠ sampleHost.core.pc := by
  decide

/-- C1 (amended): whenever `HandleControlStore(addy, val)` returns 0, and the
call is not a store of the value 0 to the SYSCON address 0x11100000, the hart
state afterwards equals the hart state before in `pc`, in all 32 registers and
in every other member except `timermatchl` and `timermatchh`. -/
theorem HandleControlStore_zero_frame (h : Host) (addy val : Nat)
    (hret : (HandleControlStore h addy val).2 = 0)
    (hne : addy ≠ 0x11100000 ∨ val ≠ 0) :
    (HandleControlStore h addy val).1.core =
      { h.core with
        timermatchl := (HandleControlStore h addy val).1.core.timermatchl
        timermatchh := (HandleControlStore h addy val).1.core.timermatchh } := by
  have hs : addy ≠ 0x11100000 := by
    rcases hne with hne | hne
    · exact hne
    · intro ha
      apply hne
      simpa [HandleControlStore, ha] using hret
  unfold HandleControlStore
  by_cases h1 : addy = 0x10000000
  · simp [h1]
  by_cases h2 : addy = 0x11004004
  · simp [h2]
  by_cases h3 : addy = 0x11004000
  · simp [h3]
  · simp [h1, h2, h3, hs]

/-- Witness for `HandleControlStore_zero_frame`: a store of 7 to the low
compare word. -/
theorem HandleControlStore_zero_frame_witness :
    (HandleControlStore sampleHost 0x11004000 7).2 = 0 ∧
    ((0x11004000 : Nat) ≠ 0x11100000 ∨ (7 : Nat) ≠ 0) ∧
    (HandleControlStore sampleHost 0x11004000 7).1.core =
      { sampleHost.core with
        timermatchl := (HandleControlStore sampleHost 0x11004000 7).1.core.timermatchl
        timermatchh := (HandleControlStore sampleHost 0x11004000 7).1.core.timermatchh } :=
  ⟨by decide, by decide,
    HandleControlStore_zero_frame sampleHost 0x11004000 7 (by decide) (by decide)⟩

/-- C2: for a non-zero `val`, `HandleControlStore(0x11100000, val)` replaces
`core->pc` by `pc + 4` modulo 2^32, changes nothing else and returns `val`, and
the macro then makes the step return `val` (so 0x5555 and 0x7777 come back
unchanged); for every other address the hook returns 0 and the step goes on;
and whenever the macro makes the step return a code, the address is the SYSCON
address and the code is the non-zero value the hook returned. -/
theorem HandleControlStore_syscon (h : Host) (val : Nat) (hval : val ≠ 0) :
    HandleControlStore h 0x11100000 val =
      ({ h with core := { h.core with pc := (h.core.pc + 4) % 4294967296 } }, val) ∧
    MINIRV32_HANDLE_MEM_STORE_CONTROL h 0x11100000 val =
      ({ h with core := { h.core with pc := (h.core.pc + 4) % 4294967296 } }, some val) ∧
    (MINIRV32_HANDLE_MEM_STORE_CONTROL h 0x11100000 0x5555).2 = some 0x5555 ∧
    (MINIRV32_HANDLE_MEM_STORE_CONTROL h 0x11100000 0x7777).2 = some 0x7777 ∧
    (∀ addy v : Nat, addy ≠ 0x11100000 →
      (HandleControlStore h addy v).2 = 0 ∧
      (MINIRV32_HANDLE_MEM_STORE_CONTROL h addy v).2 = none) ∧
    (∀ addy v code : Nat, (MINIRV32_HANDLE_MEM_STORE_CONTROL h addy v).2 = some code →
      addy = 0x11100000 ∧ code = (HandleControlStore h addy v).2 ∧ code ≠ 0) := by
  refine ⟨?_, ?_, ?_, ?_, ?_, ?_⟩
  · simp [HandleControlStore, u32]
  · simp [MINIRV32_HANDLE_MEM_STORE_CONTROL, HandleControlStore, u32, hval]
  · simp [MINIRV32_HANDLE_MEM_STORE_CONTROL, HandleControlStore]
  · simp [MINIRV32_HANDLE_MEM_STORE_CONTROL, HandleControlStore]
  · intro addy v hne
    have h0 : (HandleControlStore h addy v).2 = 0 := by
      unfold HandleControlStore
      split_ifs <;> simp_all
    exact ⟨h0, by simp [MINIRV32_HANDLE_MEM_STORE_CONTROL, h0]⟩
  · intro addy v code hc
    unfold MINIRV32_HANDLE_MEM_STORE_CONTROL at hc
    by_cases hr : (HandleControlStore h addy v).2 = 0
    · simp [hr] at hc
    · simp [hr] at hc
      have haddy : addy = 0x11100000 := by
        by_contra hne
        apply hr
        unfold HandleControlStore
        split_ifs <;> simp_all
      subst haddy
      have hv : (HandleControlStore h 0x11100000 v).2 = v := by simp [HandleControlStore]
      refine ⟨rfl, ?_, ?_⟩
      · rw [hv]; exact hc.symm
      · rw [← hc]; rw [hv] at hr; exact hr

/-- Witness for `HandleControlStore_syscon` at the poweroff code 0x5555. -/
theorem HandleControlStore_syscon_witness :
    (0x5555 : Nat) ≠ 0 ∧
    HandleControlStore sampleHost 0x11100000 0x5555 =
      ({ sampleHost with
          core := { sampleHost.core with pc := (sampleHost.core.pc + 4) % 4294967296 } },
        0x5555) :=
  ⟨by decide, (HandleControlStore_syscon sampleHost 0x5555 (by decide)).1⟩

/-- C8: `HandleControlStore(0x11004000, lo)` replaces only `timermatchl` by
`lo`, `HandleControlStore(0x11004004, hi)` replaces only `timermatchh` by `hi`,
both return 0 (so the macro does not end the step), and after both stores, in
either order, the 64-bit compare value is `hi * 2^32 + lo`. -/
theorem HandleControlStore_timermatch (h : Host) (lo hi : Nat) :
    HandleControlStore h 0x11004000 lo =
      ({ h with core := { h.core with timermatchl := lo } }, 0) ∧
    HandleControlStore h 0x11004004 hi =
      ({ h with core := { h.core with timermatchh := hi } }, 0) ∧
    (MINIRV32_HANDLE_MEM_STORE_CONTROL h 0x11004000 lo).2 = none ∧
    (MINIRV32_HANDLE_MEM_STORE_CONTROL h 0x11004004 hi).2 = none ∧
    (HandleControlStore (HandleControlStore h 0x11004000 lo).1 0x11004004 hi).1.core.mtimecmp
      = hi * 4294967296 + lo ∧
    (HandleControlStore (HandleControlStore h 0x11004004 hi).1 0x11004000 lo).1.core.mtimecmp
      = hi * 4294967296 + lo ∧
    (HandleControlStore (HandleControlStore h 0x11004000 lo).1 0x11004004 hi).1 =
      (HandleControlStore (HandleControlStore h 0x11004004 hi).1 0x11004000 lo).1 := by
  simp [HandleControlStore, MINIRV32_HANDLE_MEM_STORE_CONTROL, MiniRV32IMAState.mtimecmp]

/-! ### The load hook -/

/-- C3 (as stated, refuted): with 1024 cycles on the cycle pair
`cycleh:cyclel` and the timer pair at zero, the load from 0x1100bff8 returns 0,
which is not the low word of the cycle counter. -/
theorem HandleControlLoad_mtime_is_not_cycle :
    cycledHost.core.this_ccount % 4294967296 = 1024 ∧
    (HandleControlLoad Platform.windows quietEnv cycledHost 0x1100bff8).2 = 0 ∧
    (HandleControlLoad Platform.windows quietEnv cycledHost 0x1100bff8).2 ≠
      cycledHost.core.this_ccount % 4294967296 := by
  decide

/-- C3 (amended): `HandleControlLoad(0x1100bff8)` returns `core->timerl` and
`HandleControlLoad(0x1100bffc)` returns `core->timerh`, the low and the high 32
bits of the 64-bit timer `timerh:timerl` (members of their own, not the cycle
pair `cycleh:cyclel`); neither load changes the hart state, the console or the
keyboard. -/
theorem HandleControlLoad_mtime (plat : Platform) (env : Env) (h : Host)
    (hl : h.core.timerl < 4294967296) :
    HandleControlLoad plat env h 0x1100bff8 = (h, h.core.timerl) ∧
    HandleControlLoad plat env h 0x1100bffc = (h, h.core.timerh) ∧
    (HandleControlLoad plat env h 0x1100bff8).2 = h.core.timer64 % 4294967296 ∧
    (HandleControlLoad plat env h 0x1100bffc).2 = h.core.timer64 / 4294967296 := by
  have e1 : HandleControlLoad plat env h 0x1100bff8 = (h, h.core.timerl) := by
    simp [HandleControlLoad]
  have e2 : HandleControlLoad plat env h 0x1100bffc = (h, h.core.timerh) := by
    simp [HandleControlLoad]
  refine ⟨e1, e2, ?_, ?_⟩
  · rw [e1]; simp only [MiniRV32IMAState.timer64]; omega
  · rw [e2]; simp only [MiniRV32IMAState.timer64]; omega

/-- Witness for `HandleControlLoad_mtime` on the reset host. -/
theorem HandleControlLoad_mtime_witness :
    sampleHost.core.timerl < 4294967296 ∧
    HandleControlLoad Platform.windows quietEnv sampleHost 0x1100bff8 =
      (sampleHost, sampleHost.core.timerl) :=
  ⟨by decide, (HandleControlLoad_mtime Platform.windows quietEnv sampleHost (by decide)).1⟩

/-- On Windows `IsKBHit` returns 0 or 1; a non-zero result leaves a key
pending, and a zero result leaves the keyboard as it was. -/
theorem IsKBHit_windows_cases (env : Env) (con : Console) (kb : Keyboard) :
    ((IsKBHit_windows env con kb).2 = 1 ∧ (IsKBHit_windows env con kb).1.g_kbPending ≠ 0) ∨
    ((IsKBHit_windows env con kb).2 = 0 ∧ (IsKBHit_windows env con kb).1 = kb ∧
      kb.g_kbPending = 0) := by
  unfold IsKBHit_windows
  by_cases hp : kb.g_kbPending = 0
  · cases hk : pollKeys env con (List.range' 8 248) with
    | none => right; simp [hp]
    | some v => left; simp [hp]
  · left; simp [hp]

/-- On POSIX `IsKBHit` returns 0, 1 or -1 and never touches the bytes that
wait on standard input. -/
theorem IsKBHit_posix_cases (env : Env) (kb : Keyboard) :
    ((IsKBHit_posix env kb).2 = 0 ∨ (IsKBHit_posix env kb).2 = 1 ∨
      (IsKBHit_posix env kb).2 = -1) ∧
    (IsKBHit_posix env kb).1.stdin = kb.stdin ∧
    ((IsKBHit_posix env kb).2 = 1 → kb.stdin ≠ [] ∧ (IsKBHit_posix env kb).1 = kb) := by
  unfold IsKBHit_posix
  by_cases he : kb.is_eofd = 0
  · cases hs : kb.stdin with
    | nil => by_cases hw : env.stdin_write = 0 <;> simp [he, hw, hs]
    | cons b bs =>
      have hpos : ¬ ((bs.length : Int) + 1 = 0) := by omega
      simp [he, hpos, hs]
  · simp [he]

/-- The poll of `IsKBHit` (Windows) over the virtual keys `a`, ..., `a + n - 1`
stops at the first key that is not a shift key and is found pressed while the
cursor hovers, and yields the value computed for that key. -/
theorem pollKeys_hit (env : Env) (con : Console) (vk : Nat)
    (hs : ¬ (vk = 0x10 ∨ vk = 0xA0 ∨ vk = 0xA1)) (hp : env.GetAsyncKeyState vk &&& 1 ≠ 0)
    (hh : IsHover env con = true) :
    ∀ (n a : Nat), a ≤ vk → vk < a + n →
      (∀ k, a ≤ k → k < vk →
        k = 0x10 ∨ k = 0xA0 ∨ k = 0xA1 ∨ env.GetAsyncKeyState k &&& 1 = 0) →
      pollKeys env con (List.range' a n) = some (keyValue env vk) := by
  intro n
  induction n with
  | zero => intro a h1 h2; omega
  | succ n ih =>
    intro a h1 h2 hq
    rw [List.range'_succ]
    unfold pollKeys
    by_cases e : a = vk
    · subst e
      simp only [hs, if_false, hp, hh, ne_eq, not_false_eq_true, and_self, if_true]
    · have hrec := ih (a + 1) (by omega) (by omega) (fun k h1 h2 => hq k (by omega) h2)
      rcases hq a (le_refl a) (by omega) with q | q | q | q
      · simp only [q, true_or, if_true] at hrec ⊢
        exact hrec
      · simp only [q, true_or, or_true, if_true] at hrec ⊢
        exact hrec
      · simp only [q, or_true, if_true] at hrec ⊢
        exact hrec
      · by_cases sk : a = 0x10 ∨ a = 0xA0 ∨ a = 0xA1
        · simp only [sk, if_true]
          exact hrec
        · simp only [sk, if_false, q, ne_eq, not_true_eq_false, false_and]
          exact hrec

/-- The poll of `IsKBHit` (Windows) finds nothing when every key polled is a
shift key or not pressed, or when the cursor does not hover. -/
theorem pollKeys_quiet (env : Env) (con : Console) :
    ∀ l : List Nat,
      (∀ k ∈ l, k = 0x10 ∨ k = 0xA0 ∨ k = 0xA1 ∨ env.GetAsyncKeyState k &&& 1 = 0 ∨
        IsHover env con = false) →
      pollKeys env con l = none := by
  intro l
  induction l with
  | nil => intro _; rfl
  | cons k ks ih =>
    intro hq
    have hrec := ih (fun x hx => hq x (List.mem_cons_of_mem _ hx))
    unfold pollKeys
    by_cases sk : k = 0x10 ∨ k = 0xA0 ∨ k = 0xA1
    · simp only [sk, if_true]
      exact hrec
    · have hk : env.GetAsyncKeyState k &&& 1 = 0 ∨ IsHover env con = false := by
        rcases hq k (List.mem_cons_self _ _) with q | q | q | q | q
        · exact absurd (Or.inl q) sk
        · exact absurd (Or.inr (Or.inl q)) sk
        · exact absurd (Or.inr (Or.inr q)) sk
        · exact Or.inl q
        · exact Or.inr q
      have hn : ¬ (env.GetAsyncKeyState k &&& 1 ≠ 0 ∧ IsHover env con = true) := by
        rintro ⟨n1, n2⟩
        rcases hk with q | q
        · exact n1 q
        · rw [q] at n2; exact absurd n2 (by decide)
      simp only [sk, if_false, hn]
      exact hrec

/-- C6 (as stated, refuted): with the function key F1 pressed, a key is ready
(`IsKBHit` returns 1), and the load from 0x10000000 returns 0xFFFFFFFF, which is
not a byte. -/
theorem HandleControlLoad_uart_data_not_byte :
    (IsKBHit Platform.windows f1Env sampleHost.con sampleHost.kb).2 = 1 ∧
    (HandleControlLoad Platform.windows f1Env sampleHost 0x10000000).2 = 4294967295 ∧
    ¬ (HandleControlLoad Platform.windows f1Env sampleHost 0x10000000).2 ≤ 255 := by
  decide

/-- C6 (amended): in the Windows keyboard back end, when a key is ready
(`IsKBHit` returns non-zero) `HandleControlLoad(0x10000000)` returns the value
`g_kbValue` of the pending key converted to `uint32_t` (that value itself when
it lies in 0..255) and consumes it: `g_kbPending` is 0 afterwards. When no key
is ready it returns 0 and leaves the whole host state, the keyboard included,
unchanged. The hart state and the console are never changed.

A key is ready when one was pending already, and then `g_kbValue` is the value
stored with it; or when the poll of the virtual keys 8 to 255 finds a key other
than `VK_SHIFT`, `VK_LSHIFT`, `VK_RSHIFT` pressed while the cursor hovers over
the overlay, and then `g_kbValue` is the value of the first such key: for
`VK_OEM_MINUS` the character `_` with shift down and `-` without; for another
key the first UTF-16 unit of `ToUnicodeEx` when that returns a positive length;
else 8, 9, 27, 10 for `VK_LEFT`, `VK_RIGHT`, `VK_UP`, `VK_DOWN` and -1, which is
returned as 0xFFFFFFFF, for any other key. With nothing pending and no such key
(or the cursor elsewhere) no key is ready. -/
theorem HandleControlLoad_uart_data_windows (env : Env) (h : Host) :
    ((IsKBHit Platform.windows env h.con h.kb).2 ≠ 0 →
      HandleControlLoad Platform.windows env h 0x10000000 =
        ({ h with kb := { (IsKBHit Platform.windows env h.con h.kb).1 with g_kbPending := 0 } },
          toU32 (IsKBHit Platform.windows env h.con h.kb).1.g_kbValue) ∧
      (HandleControlLoad Platform.windows env h 0x10000000).1.kb.g_kbPending = 0 ∧
      (∀ b : Nat, b ≤ 255 → (IsKBHit Platform.windows env h.con h.kb).1.g_kbValue = b →
        (HandleControlLoad Platform.windows env h 0x10000000).2 = b)) ∧
    ((IsKBHit Platform.windows env h.con h.kb).2 = 0 →
      HandleControlLoad Platform.windows env h 0x10000000 = (h, 0)) ∧
    (h.kb.g_kbPending ≠ 0 →
      IsKBHit Platform.windows env h.con h.kb = (h.kb, 1) ∧
      HandleControlLoad Platform.windows env h 0x10000000 =
        ({ h with kb := { h.kb with g_kbPending := 0 } }, toU32 h.kb.g_kbValue)) ∧
    (∀ vk : Nat, h.kb.g_kbPending = 0 → 8 ≤ vk → vk < 256 →
      ¬ (vk = 0x10 ∨ vk = 0xA0 ∨ vk = 0xA1) → env.GetAsyncKeyState vk &&& 1 ≠ 0 →
      IsHover env h.con = true →
      (∀ k, 8 ≤ k → k < vk →
        k = 0x10 ∨ k = 0xA0 ∨ k = 0xA1 ∨ env.GetAsyncKeyState k &&& 1 = 0) →
      IsKBHit Platform.windows env h.con h.kb =
        ({ h.kb with g_kbValue := keyValue env vk, g_kbPending := 1 }, 1) ∧
      HandleControlLoad Platform.windows env h 0x10000000 =
        ({ h with kb := { h.kb with g_kbValue := keyValue env vk, g_kbPending := 0 } },
          toU32 (keyValue env vk))) ∧
    (h.kb.g_kbPending = 0 →
      (∀ k, 8 ≤ k → k < 256 →
        k = 0x10 ∨ k = 0xA0 ∨ k = 0xA1 ∨ env.GetAsyncKeyState k &&& 1 = 0 ∨
          IsHover env h.con = false) →
      IsKBHit Platform.windows env h.con h.kb = (h.kb, 0) ∧
      HandleControlLoad Platform.windows env h 0x10000000 = (h, 0)) ∧
    (toU32 (keyValue env 0xBD) = if env.GetAsyncKeyState 0x10 &&& 0x8000 ≠ 0 then 95 else 45) ∧
    (∀ vk : Nat, vk ≠ 0xBD →
      (env.ToUnicodeEx vk (decide (env.GetAsyncKeyState 0x10 &&& 0x8000 ≠ 0))).1 > 0 →
      toU32 (keyValue env vk) =
        (env.ToUnicodeEx vk (decide (env.GetAsyncKeyState 0x10 &&& 0x8000 ≠ 0))).2 % 65536) ∧
    (∀ vk : Nat, vk ≠ 0xBD →
      ¬ (env.ToUnicodeEx vk (decide (env.GetAsyncKeyState 0x10 &&& 0x8000 ≠ 0))).1 > 0 →
      keyValue env vk = (if vk = 0x25 then 8 else if vk = 0x27 then 9 else if vk = 0x26 then 27
        else if vk = 0x28 then 10 else -1) ∧
      toU32 (keyValue env vk) = (if vk = 0x25 then 8 else if vk = 0x27 then 9
        else if vk = 0x26 then 27 else if vk = 0x28 then 10 else 0xFFFFFFFF)) := by
  have hA : (IsKBHit Platform.windows env h.con h.kb).2 ≠ 0 →
      HandleControlLoad Platform.windows env h 0x10000000 =
        ({ h with kb := { (IsKBHit Platform.windows env h.con h.kb).1 with g_kbPending := 0 } },
          toU32 (IsKBHit Platform.windows env h.con h.kb).1.g_kbValue) := by
    intro hne
    rcases IsKBHit_windows_cases env h.con h.kb with ⟨h1, hp⟩ | ⟨h0, _, _⟩
    · simp [HandleControlLoad, IsKBHit, ReadKBByte, ReadKBByte_windows, h1, hp]
    · exact absurd (by simpa [IsKBHit] using h0) hne
  have hB : (IsKBHit Platform.windows env h.con h.kb).2 = 0 →
      HandleControlLoad Platform.windows env h 0x10000000 = (h, 0) := by
    intro h0
    rcases IsKBHit_windows_cases env h.con h.kb with ⟨h1, _⟩ | ⟨_, hk, _⟩
    · simp only [IsKBHit] at h0
      rw [h1] at h0; exact absurd h0 (by decide)
    · simp only [IsKBHit] at h0
      simp [HandleControlLoad, IsKBHit, h0, hk]
  refine ⟨fun hne => ⟨hA hne, ?_, ?_⟩, hB, ?_, ?_, ?_, ?_, ?_, ?_⟩
  · rw [hA hne]
  · intro b hb hv
    rw [hA hne]
    simp only [hv, toU32]
    omega
  · intro hp
    have e : IsKBHit Platform.windows env h.con h.kb = (h.kb, 1) := by
      simp [IsKBHit, IsKBHit_windows, hp]
    refine ⟨e, ?_⟩
    rw [hA (by rw [e]; simp), e]
  · intro vk hp h8 h256 hs hpr hh hq
    have hk := pollKeys_hit env h.con vk hs hpr hh 248 8 h8 (by omega) hq
    have e : IsKBHit Platform.windows env h.con h.kb =
        ({ h.kb with g_kbValue := keyValue env vk, g_kbPending := 1 }, 1) := by
      simp [IsKBHit, IsKBHit_windows, hp, hk]
    refine ⟨e, ?_⟩
    rw [hA (by rw [e]; simp), e]
  · intro hp hq
    have hk := pollKeys_quiet env h.con (List.range' 8 248) (fun k hk => by
      have := List.mem_range'_1.mp hk
      exact hq k this.1 (by omega))
    have e : IsKBHit Platform.windows env h.con h.kb = (h.kb, 0) := by
      simp [IsKBHit, IsKBHit_windows, hp, hk]
    exact ⟨e, hB (by rw [e])⟩
  · unfold keyValue
    simp only [if_true]
    split_ifs <;> rfl
  · intro vk hvk hlen
    unfold keyValue
    simp only [hvk, if_false, hlen, if_true, toU32]
    omega
  · intro vk hvk hlen
    unfold keyValue
    simp only [hvk, if_false, hlen]
    refine ⟨trivial, ?_⟩
    split_ifs <;> rfl

/-- Witness for `HandleControlLoad_uart_data_windows`: with the key A pressed
a key is ready and the load returns the letter a; with no key down the load
returns 0 and changes nothing. -/
theorem HandleControlLoad_uart_data_windows_witness :
    (IsKBHit Platform.windows keyAEnv sampleHost.con sampleHost.kb).2 ≠ 0 ∧
    (HandleControlLoad Platform.windows keyAEnv sampleHost 0x10000000).1.kb.g_kbPending = 0 ∧
    (HandleControlLoad Platform.windows keyAEnv sampleHost 0x10000000).2 = 97 ∧
    (IsKBHit Platform.windows quietEnv sampleHost.con sampleHost.kb).2 = 0 ∧
    HandleControlLoad Platform.windows quietEnv sampleHost 0x10000000 = (sampleHost, 0) :=
  ⟨by decide,
    ((HandleControlLoad_uart_data_windows keyAEnv sampleHost).1 (by decide)).2.1,
    ((HandleControlLoad_uart_data_windows keyAEnv sampleHost).1 (by decide)).2.2 97
      (by decide) (by decide),
    by decide,
    (HandleControlLoad_uart_data_windows quietEnv sampleHost).2.1 (by decide)⟩

/-- C7 (as stated, refuted): in the POSIX back end, with nothing waiting on a
closed standard input, `IsKBHit` returns -1 and the load from 0x10000005
returns 0xFFFFFFFF, neither 0x60 nor 0x61. -/
theorem HandleControlLoad_lsr_eof :
    (IsKBHit Platform.posix closedEnv sampleHost.con sampleHost.kb).2 = -1 ∧
    (HandleControlLoad Platform.posix closedEnv sampleHost 0x10000005).2 = 4294967295 ∧
    (HandleControlLoad Platform.posix closedEnv sampleHost 0x10000005).2 ≠ 0x60 ∧
    (HandleControlLoad Platform.posix closedEnv sampleHost 0x10000005).2 ≠ 0x61 := by
  decide

/-- C7 (amended): `HandleControlLoad(0x10000005)` returns `0x60 | IsKBHit()`
and keeps the hart state and the console. In the Windows back end `IsKBHit`
returns 1 or 0, so the load returns 0x61 when a key is ready and 0x60
otherwise, and a key that was pending before stays pending with the keyboard
unchanged. In the POSIX back end the load returns 0x61 when `IsKBHit` returns
1, 0x60 when it returns 0 and 0xFFFFFFFF when it returns -1 (standard input at
end of file), and the bytes waiting on standard input are left as they were. -/
theorem HandleControlLoad_lsr (env : Env) (h : Host) :
    (HandleControlLoad Platform.windows env h 0x10000005 =
        ({ h with kb := (IsKBHit Platform.windows env h.con h.kb).1 },
          if (IsKBHit Platform.windows env h.con h.kb).2 ≠ 0 then 0x61 else 0x60) ∧
      ((IsKBHit Platform.windows env h.con h.kb).2 = 1 ∨
        (IsKBHit Platform.windows env h.con h.kb).2 = 0) ∧
      (h.kb.g_kbPending ≠ 0 →
        HandleControlLoad Platform.windows env h 0x10000005 = (h, 0x61))) ∧
    (HandleControlLoad Platform.posix env h 0x10000005 =
        ({ h with kb := (IsKBHit Platform.posix env h.con h.kb).1 },
          if (IsKBHit Platform.posix env h.con h.kb).2 = 1 then 0x61
          else if (IsKBHit Platform.posix env h.con h.kb).2 = 0 then 0x60
          else 0xFFFFFFFF) ∧
      ((IsKBHit Platform.posix env h.con h.kb).2 = 1 ∨
        (IsKBHit Platform.posix env h.con h.kb).2 = 0 ∨
        (IsKBHit Platform.posix env h.con h.kb).2 = -1) ∧
      (HandleControlLoad Platform.posix env h 0x10000005).1.kb.stdin = h.kb.stdin) := by
  refine ⟨⟨?_, ?_, ?_⟩, ?_, ?_, ?_⟩
  · rcases IsKBHit_windows_cases env h.con h.kb with ⟨h1, _⟩ | ⟨h0, _, _⟩
    · simp [HandleControlLoad, IsKBHit, h1, toU32]
    · simp [HandleControlLoad, IsKBHit, h0, toU32]
  · rcases IsKBHit_windows_cases env h.con h.kb with ⟨h1, _⟩ | ⟨h0, _, _⟩
    · left; simpa [IsKBHit] using h1
    · right; simpa [IsKBHit] using h0
  · intro hp
    simp [HandleControlLoad, IsKBHit, IsKBHit_windows, hp, toU32]
  · rcases (IsKBHit_posix_cases env h.kb).1 with h0 | h1 | hm
    · simp [HandleControlLoad, IsKBHit, h0, toU32]
    · simp [HandleControlLoad, IsKBHit, h1, toU32]
    · simp [HandleControlLoad, IsKBHit, hm, toU32]
  · rcases (IsKBHit_posix_cases env h.kb).1 with h0 | h1 | hm
    · right; left; simpa [IsKBHit] using h0
    · left; simpa [IsKBHit] using h1
    · right; right; simpa [IsKBHit] using hm
  · simpa [HandleControlLoad, IsKBHit] using (IsKBHit_posix_cases env h.kb).2.1

/-- Witness for `HandleControlLoad_lsr`: with a key already pending the load
from 0x10000005 returns 0x61 and the host state, the pending key included, is
unchanged. -/
theorem HandleControlLoad_lsr_witness :
    ({ sampleHost with kb := { initKeyboard with g_kbPending := 1, g_kbValue := 97 } } :
      Host).kb.g_kbPending ≠ 0 ∧
    HandleControlLoad Platform.windows quietEnv
        { sampleHost with kb := { initKeyboard with g_kbPending := 1, g_kbValue := 97 } }
        0x10000005
      = ({ sampleHost with kb := { initKeyboard with g_kbPending := 1, g_kbValue := 97 } },
          0x61) :=
  ⟨by decide,
    (HandleControlLoad_lsr quietEnv
      { sampleHost with kb := { initKeyboard with g_kbPending := 1, g_kbValue := 97 } }).1.2.2
      (by decide)⟩

/-! ### Strict mode and the main loop -/

/-- C5 (as stated, refuted): with `rt` at 2^64 - 1024 and batches of 1024, a
step that returns 3 sets `instct` to 0, but `rt += instrs_per_flip` wraps `rt`
to 0, the loop condition holds again and the step function is called a second
time. -/
theorem mainLoop_fault_at_wrap_calls_again :
    mainLoopCond ((18446744073709550592 + instrs_per_flip defaultCfg) % 18446744073709551616) 0
      = true ∧
    (mainLoop Platform.windows defaultCfg faultingStep 1024 (fun _ => quietEnv) 4
      (loopStateAt 18446744073709550592)).calls = 2 := by
  decide

/-- C5 (amended): in strict mode (`fail_on_all_faults != 0`) the macro
`MINIRV32_POSTEXEC` prints "FAULT" and makes the step return 3 for every `pc`,
`ir` and every `retval > 0`; and when a call of the step function returns 3 in
the main loop, with `rt + instrs_per_flip < 2^64`, then `instct` is set to 0,
the loop condition is false at the next test and the loop ends without another
call of the step function, for both batch sizes 1 and 1024. -/
theorem strict_fault_ends_mainLoop (fail_on_all_faults : Int) (pc ir retval : Nat)
    (plat : Platform) (cfg : LoopCfg)
    (MiniRV32IMAStep : Host → Ram → Nat → Nat → Host × Ram × Int)
    (ram_amt : Nat) (world : Nat → Env) (fuel : Nat) (st : MainState)
    (hstrict : fail_on_all_faults ≠ 0) (hretval : retval > 0)
    (hwrap : st.rt + instrs_per_flip cfg < 18446744073709551616)
    (hcond : mainLoopCond st.rt st.instct = true)
    (hret : (mainCallStep cfg MiniRV32IMAStep ram_amt (world (fuel + 1)) st).2 = 3) :
    MINIRV32_POSTEXEC fail_on_all_faults pc ir retval = (["FAULT\n"], MacroExit.returns 3) ∧
    (instrs_per_flip cfg = 1 ∨ instrs_per_flip cfg = 1024) ∧
    mainLoopCond ((st.rt + instrs_per_flip cfg) % 18446744073709551616) 0 = false ∧
    ∃ st2, mainLoop plat cfg MiniRV32IMAStep ram_amt world (fuel + 2) st
        = LoopExit.finished st2 ∧
      st2.instct = 0 ∧ st2.calls = st.calls + 1 := by
  have hipf : instrs_per_flip cfg = 1 ∨ instrs_per_flip cfg = 1024 := by
    unfold instrs_per_flip
    by_cases h : cfg.single_step = 0 <;> simp [h]
  have hpos : 0 < instrs_per_flip cfg := by rcases hipf with h | h <;> omega
  have hc : mainLoopCond ((st.rt + instrs_per_flip cfg) % 18446744073709551616) 0 = false := by
    have h1 : (st.rt + instrs_per_flip cfg) % 18446744073709551616
        = st.rt + instrs_per_flip cfg := Nat.mod_eq_of_lt hwrap
    have h2 : toU64 (0 + 1) = 1 := by decide
    simp only [mainLoopCond, h1, h2]
    simp
    omega
  refine ⟨?_, hipf, hc, ?_⟩
  · simp [MINIRV32_POSTEXEC, hstrict, hretval]
  · have hb : mainBody plat cfg MiniRV32IMAStep ram_amt (world (fuel + 1)) st =
        SwitchExit.goesOn
          { (mainCallStep cfg MiniRV32IMAStep ram_amt (world (fuel + 1)) st).1 with
            instct := 0 } := by
      simp [mainBody, hret, mainSwitch]
    have hrt : (mainCallStep cfg MiniRV32IMAStep ram_amt (world (fuel + 1)) st).1.rt = st.rt :=
      rfl
    have hcalls :
        (mainCallStep cfg MiniRV32IMAStep ram_amt (world (fuel + 1)) st).1.calls
          = st.calls + 1 := rfl
    refine ⟨{ (mainCallStep cfg MiniRV32IMAStep ram_amt (world (fuel + 1)) st).1 with
        instct := 0, rt := (st.rt + instrs_per_flip cfg) % 18446744073709551616 }, ?_, rfl, hcalls⟩
    rw [mainLoop]
    simp only [hcond, if_true, hb]
    rw [mainLoop]
    simp only [hrt, hc]
    simp

/-- Witness for `strict_fault_ends_mainLoop`: strict mode, a trap value of 2,
and a step function that returns 3 on the first pass of a run without
instruction limit. -/
theorem strict_fault_ends_mainLoop_witness :
    MINIRV32_POSTEXEC 1 0x80000000 0 2 = (["FAULT\n"], MacroExit.returns 3) ∧
    mainLoopCond ((0 + instrs_per_flip defaultCfg) % 18446744073709551616) 0 = false :=
  let t := strict_fault_ends_mainLoop 1 0x80000000 0 2 Platform.windows defaultCfg
    faultingStep 1024 (fun _ => quietEnv) 0 (loopStateAt 0)
    (by decide) (by decide) (by decide) (by decide) (by decide)
  ⟨t.1, t.2.2.1⟩

/-! ### Memory lemmas -/

theorem memWrite_outside (ram : Ram) (off : Nat) (bs : List Nat) (i : Nat)
    (h : i < off ∨ off + bs.length ≤ i) : memWrite ram off bs i = ram i := by
  unfold memWrite
  have : ¬ (off ≤ i ∧ i < off + bs.length) := by omega
  simp [this]

theorem memWrite_inside (ram : Ram) (off : Nat) (bs : List Nat) (i : Nat)
    (h1 : off ≤ i) (h2 : i < off + bs.length) :
    memWrite ram off bs i = bs.getD (i - off) 0 := by
  unfold memWrite
  simp [h1, h2]

theorem writeWord_outside (ram : Ram) (a v i : Nat) (h : i < a ∨ a + 4 ≤ i) :
    writeWord ram a v i = ram i := by
  unfold writeWord
  exact memWrite_outside ram a _ i (by simpa using h)

theorem readWord_congr (r1 r2 : Ram) (a b : Nat)
    (h : ∀ k, k < 4 → r1 (a + k) = r2 (b + k)) : readWord r1 a = readWord r2 b := by
  unfold readWord
  have h0 := h 0 (by omega)
  rw [Nat.add_zero, Nat.add_zero] at h0
  rw [h0, h 1 (by omega), h 2 (by omega), h 3 (by omega)]

/-- The four bytes a word store leaves at its address. -/
theorem writeWord_bytes (ram : Ram) (a v : Nat) :
    writeWord ram a v a = v % 256 ∧ writeWord ram a v (a + 1) = v / 256 % 256 ∧
    writeWord ram a v (a + 2) = v / 65536 % 256 ∧
    writeWord ram a v (a + 3) = v / 16777216 % 256 := by
  unfold writeWord memWrite
  simp

theorem readWord_writeWord (ram : Ram) (a v : Nat) :
    readWord (writeWord ram a v) a = v % 4294967296 := by
  obtain ⟨h0, h1, h2, h3⟩ := writeWord_bytes ram a v
  unfold readWord
  rw [h0, h1, h2, h3]
  omega

/-- A bit field below bit `i` and one from bit `i` up are joined by addition. -/
theorem or_low (a b : Nat) (i : Nat) (h : b < 2 ^ i) : b ||| a * 2 ^ i = a * 2 ^ i + b := by
  rw [Nat.or_comm, Nat.mul_comm, ← Nat.mul_add_lt_is_or h]

/-- The byte swap as arithmetic on the four bytes of a `uint32_t`. -/
theorem bswap32_eq (v : Nat) (hv : v < 4294967296) :
    bswap32 v = v / 16777216 + (v / 65536 % 256) * 256 + (v / 256 % 256) * 65536
      + (v % 256) * 16777216 := by
  have e1 : ∀ x, x &&& 0xff = x % 256 := fun x => Nat.and_pow_two_sub_one_eq_mod x 8
  unfold bswap32
  simp only [e1, Nat.shiftRight_eq_div_pow, Nat.shiftLeft_eq]
  have a : v / 2 ^ 24 < 2 ^ 8 := by omega
  rw [or_low _ _ 8 a]
  have t1 : v / 2 ^ 16 % 256 * 2 ^ 8 + v / 2 ^ 24 < 2 ^ 16 := by omega
  rw [or_low _ _ 16 t1]
  have t2 : v / 2 ^ 8 % 256 * 2 ^ 16 + (v / 2 ^ 16 % 256 * 2 ^ 8 + v / 2 ^ 24) < 2 ^ 24 := by
    omega
  rw [or_low _ _ 24 t2]
  norm_num
  omega

/-- The bytes of a word given by its four base-256 digits. -/
theorem word_digits (a b c d : Nat) (ha : a < 256) (hb : b < 256) (hc : c < 256)
    (hd : d < 256) :
    (a + 256 * b + 65536 * c + 16777216 * d) % 256 = a ∧
    (a + 256 * b + 65536 * c + 16777216 * d) / 256 % 256 = b ∧
    (a + 256 * b + 65536 * c + 16777216 * d) / 65536 % 256 = c ∧
    (a + 256 * b + 65536 * c + 16777216 * d) / 16777216 % 256 = d := by
  refine ⟨?_, ?_, ?_, ?_⟩ <;> omega

/-- A store of the swapped word reads back, big-endian, as the value. -/
theorem readWordBE_writeWord_bswap32 (ram : Ram) (a v : Nat) (hv : v < 4294967296) :
    readWordBE (writeWord ram a (bswap32 v)) a = v := by
  obtain ⟨h0, h1, h2, h3⟩ := writeWord_bytes ram a (bswap32 v)
  have hb : bswap32 v = v / 16777216 + 256 * (v / 65536 % 256) + 65536 * (v / 256 % 256)
      + 16777216 * (v % 256) := by rw [bswap32_eq v hv]; ring
  obtain ⟨d0, d1, d2, d3⟩ := word_digits (v / 16777216) (v / 65536 % 256) (v / 256 % 256)
    (v % 256) (by omega) (by omega) (by omega) (by omega)
  unfold readWordBE
  rw [h0, h1, h2, h3, hb, d0, d1, d2, d3]
  clear h0 h1 h2 h3 hb d0 d1 d2 d3
  simp only [Nat.mod_mod]
  omega

theorem strncpy_length (src : List Nat) (n : Nat) : (strncpy src n).length = n := by
  unfold strncpy
  simp only [List.length_append, List.length_replicate, List.length_take]
  omega

/-! ### The built-in DTB -/

/-- The built-in DTB block places the table at
`ram_amt - sizeof(default64mbdtb) - sizeof(struct MiniRV32IMAState)` when that
offset fits an `int`, and copies the command line over bytes 0xc0..0xf5 of
it. -/
theorem loadDtb_default (L : StateLayout) (ram_amt : Nat) (dtb : List Nat)
    (cmd : Option (List Nat)) (ram : Ram) (dtb_ptr0 : Int)
    (hfit : dtb.length + L.size ≤ ram_amt)
    (hint : ram_amt - dtb.length - L.size < 2147483648)
    (hlen : 0x13c + 4 ≤ dtb.length) :
    loadDtb L ram_amt DtbOption.default dtb cmd ram dtb_ptr0 =
      LoadExit.loaded
        (match cmd with
          | some c => memWrite (memWrite ram (ram_amt - dtb.length - L.size) dtb)
              (ram_amt - dtb.length - L.size + 0xc0) (strncpy c 54)
          | none => memWrite ram (ram_amt - dtb.length - L.size) dtb)
        ((ram_amt - dtb.length - L.size : Nat) : Int) := by
  have hp : toI32 ((ram_amt : Int) - dtb.length - L.size)
      = ((ram_amt - dtb.length - L.size : Nat) : Int) := by
    unfold toI32
    have e : (ram_amt : Int) - dtb.length - L.size
        = ((ram_amt - dtb.length - L.size : Nat) : Int) := by omega
    rw [e]
    have : ((ram_amt - dtb.length - L.size : Nat) : Int) % 4294967296
        = ((ram_amt - dtb.length - L.size : Nat) : Int) := by omega
    rw [this]
    simp only [ite_eq_left_iff]
    omega
  unfold loadDtb
  simp only [hp]
  have c1 : copyAt ram_amt ram ((ram_amt - dtb.length - L.size : Nat) : Int) dtb
      ((ram_amt - dtb.length - L.size : Nat) : Int)
      = LoadExit.loaded (memWrite ram (ram_amt - dtb.length - L.size) dtb)
        ((ram_amt - dtb.length - L.size : Nat) : Int) := by
    unfold copyAt
    have : (0 : Int) ≤ ((ram_amt - dtb.length - L.size : Nat) : Int) ∧
        ((ram_amt - dtb.length - L.size : Nat) : Int) + dtb.length ≤ ram_amt := by omega
    simp [this]
  rw [c1]
  cases cmd with
  | none => rfl
  | some c =>
    simp only
    unfold copyAt
    have hl := strncpy_length c 54
    have : (0 : Int) ≤ ((ram_amt - dtb.length - L.size : Nat) : Int) + 0xc0 ∧
        ((ram_amt - dtb.length - L.size : Nat) : Int) + 0xc0 + (strncpy c 54).length
          ≤ ram_amt := by
      rw [hl]; omega
    have ht : (((ram_amt - dtb.length - L.size : Nat) : Int) + 0xc0).toNat
        = ram_amt - dtb.length - L.size + 0xc0 := by omega
    simp [this, ht]

/-- The reset statements succeed when the struct fits the image, and change
no byte below the struct. -/
theorem resetCore_below (L : StateLayout) (ram_amt : Nat) (ram : Ram) (p : Int)
    (hsize : L.size ≤ ram_amt) :
    ∃ ram2, resetCore L ram_amt ram p = LoadExit.loaded ram2 p ∧
      ∀ i, i < ram_amt - L.size → ram2 i = ram i := by
  unfold resetCore
  simp only [hsize, if_true]
  refine ⟨_, rfl, ?_⟩
  intro i hi
  rw [writeWord_outside _ _ _ _ (by omega), writeWord_outside _ _ _ _ (by omega),
    writeWord_outside _ _ _ _ (by omega), writeWord_outside _ _ _ _ (by omega)]

/-- C9 (amended): with the built-in DTB, `ram_amt >= sizeof(default64mbdtb) +
sizeof(struct MiniRV32IMAState)`, the offset `ram_amt - sizeof(default64mbdtb)
- sizeof(struct MiniRV32IMAState)` below 2^31 (so that it fits the `int`
`dtb_ptr`), and the placeholder 0x00c0ff03 in the DTB word at byte offset
0x13c: `dtb_ptr` is that offset, the DTB lies directly below the hart state
without overlapping it, the bytes of the table outside the command line field
and the patched word are in place, the word at 0x13c holds the big-endian
encoding of `dtb_ptr`, which is strictly less than `ram_amt` and leaves out the
DTB and the hart state, and the command line copy (54 bytes at offset 0xc0)
leaves the placeholder word as it is, whatever the command line. -/
theorem default_dtb_placement (L : StateLayout) (ram_amt : Nat) (default64mbdtb : List Nat)
    (kernel_command_line : Option (List Nat)) (ram : Ram) (dtb_ptr0 : Int)
    (hfit : default64mbdtb.length + L.size ≤ ram_amt)
    (hint : ram_amt - default64mbdtb.length - L.size < 2147483648)
    (hlen : 0x13c + 4 ≤ default64mbdtb.length)
    (hword : listWord default64mbdtb 0x13c = 0x00c0ff03) :
    ∃ ram1 ram3 : Ram,
      loadDtb L ram_amt DtbOption.default default64mbdtb kernel_command_line ram dtb_ptr0
        = LoadExit.loaded ram1 ((ram_amt - default64mbdtb.length - L.size : Nat) : Int) ∧
      readWord ram1 (ram_amt - default64mbdtb.length - L.size + 0x13c) = 0x00c0ff03 ∧
      placeDtbAndReset L ram_amt DtbOption.default default64mbdtb kernel_command_line ram
          dtb_ptr0
        = LoadExit.loaded ram3 ((ram_amt - default64mbdtb.length - L.size : Nat) : Int) ∧
      (ram_amt - default64mbdtb.length - L.size) + default64mbdtb.length = ram_amt - L.size ∧
      (∀ i, i < default64mbdtb.length →
        (kernel_command_line = none ∨ i < 0xc0 ∨ 0xc0 + 54 ≤ i) → (i < 0x13c ∨ 0x13c + 4 ≤ i) →
        ram3 (ram_amt - default64mbdtb.length - L.size + i) = default64mbdtb.getD i 0) ∧
      readWordBE ram3 (ram_amt - default64mbdtb.length - L.size + 0x13c)
        = ram_amt - default64mbdtb.length - L.size ∧
      ram_amt - default64mbdtb.length - L.size < ram_amt := by
  have h1 := loadDtb_default L ram_amt default64mbdtb kernel_command_line ram dtb_ptr0 hfit
    hint hlen
  generalize hp : ram_amt - default64mbdtb.length - L.size = p at h1 hint ⊢
  generalize hr1 : (match kernel_command_line with
      | some c => memWrite (memWrite ram p default64mbdtb) (p + 0xc0) (strncpy c 54)
      | none => memWrite ram p default64mbdtb) = ram1 at h1
  -- the bytes of the table after the copies
  have hb1 : ∀ i, i < default64mbdtb.length →
      (kernel_command_line = none ∨ i < 0xc0 ∨ 0xc0 + 54 ≤ i) →
      ram1 (p + i) = default64mbdtb.getD i 0 := by
    intro i hi hc
    rw [← hr1]
    cases hk : kernel_command_line with
    | none =>
      simp only
      rw [memWrite_inside _ _ _ _ (by omega) (by omega)]
      congr 1; omega
    | some c =>
      simp only
      have hl := strncpy_length c 54
      rw [memWrite_outside _ _ _ _ (by rw [hl]; rw [hk] at hc; simp at hc; omega),
        memWrite_inside _ _ _ _ (by omega) (by omega)]
      congr 1; omega
  have hw1 : readWord ram1 (p + 0x13c) = 0x00c0ff03 := by
    rw [← hword]
    unfold listWord
    apply readWord_congr
    intro k hk
    rw [Nat.add_assoc, hb1 (0x13c + k) (by omega) (by omega)]
  obtain ⟨ram2, h2, hb2⟩ := resetCore_below L ram_amt ram1 (p : Int) (by omega)
  have hw2 : readWord ram2 (p + 0x13c) = 0x00c0ff03 := by
    rw [← hw1]
    apply readWord_congr
    intro k hk
    exact hb2 _ (by omega)
  have hu : toU32 (p : Int) = p := by
    unfold toU32
    omega
  have h3 : patchDtb ram_amt DtbOption.default ram2 (p : Int)
      = LoadExit.loaded (writeWord ram2 (p + 0x13c) (bswap32 p)) (p : Int) := by
    unfold patchDtb
    have hc : (0 : Int) ≤ (p : Int) ∧ (p : Int) + 0x13c + 4 ≤ ram_amt := by omega
    have ht : (p : Int).toNat = p := by omega
    simp only [if_true, hc, ht, hw2, hu, and_self]
  refine ⟨ram1, writeWord ram2 (p + 0x13c) (bswap32 p), h1, hw1, ?_, by omega, ?_, ?_, by omega⟩
  · unfold placeDtbAndReset
    rw [h1]
    simp only
    rw [h2]
    simp only
    exact h3
  · intro i hi hc hn
    rw [writeWord_outside _ _ _ _ (by omega), hb2 _ (by omega)]
    exact hb1 i hi hc
  · exact readWordBE_writeWord_bswap32 _ _ _ (by omega)

/-- C9 (as stated, refuted): with `ram_amt` = 0x90000000 the hypotheses of
the claim hold, but the offset 0x90000000 - 320 - 192 does not fit the `int`
`dtb_ptr`, which becomes negative, and the copy of the DTB to
`ram_image + dtb_ptr` falls outside the image. -/
theorem default_dtb_large_ram_out_of_bounds :
    sampleDtb.length + referenceLayout.size ≤ 0x90000000 ∧
    listWord sampleDtb 0x13c = 0x00c0ff03 ∧
    toI32 ((0x90000000 : Int) - sampleDtb.length - referenceLayout.size) = -1879048704 ∧
    (placeDtbAndReset referenceLayout 0x90000000 DtbOption.default sampleDtb none
      (fun _ => 0) 0).isUndefined = true := by
  decide

/-- Witness for `default_dtb_placement`: 1024 bytes of RAM, the reference
layout and the sample DTB. -/
theorem default_dtb_placement_witness :
    sampleDtb.length + referenceLayout.size ≤ 1024 ∧
    listWord sampleDtb 0x13c = 0x00c0ff03 ∧
    ∃ ram1 ram3 : Ram,
      loadDtb referenceLayout 1024 DtbOption.default sampleDtb none (fun _ => 0) 0
        = LoadExit.loaded ram1 ((1024 - sampleDtb.length - referenceLayout.size : Nat) : Int) ∧
      readWord ram1 (1024 - sampleDtb.length - referenceLayout.size + 0x13c) = 0x00c0ff03 ∧
      placeDtbAndReset referenceLayout 1024 DtbOption.default sampleDtb none (fun _ => 0) 0
        = LoadExit.loaded ram3 ((1024 - sampleDtb.length - referenceLayout.size : Nat) : Int) ∧
      readWordBE ram3 (1024 - sampleDtb.length - referenceLayout.size + 0x13c)
        = 1024 - sampleDtb.length - referenceLayout.size :=
  ⟨by decide, by decide,
    (default_dtb_placement referenceLayout 1024 sampleDtb none (fun _ => 0) 0
      (by decide) (by decide) (by decide) (by decide)).imp fun _ h =>
        h.imp fun _ h => ⟨h.1, h.2.1, h.2.2.1, h.2.2.2.2.2.1⟩⟩

/-! ### The reset state -/

theorem readWord_writeWord_outside (ram : Ram) (a v b : Nat) (h : b + 4 ≤ a ∨ a + 4 ≤ b) :
    readWord (writeWord ram a v) b = readWord ram b := by
  apply readWord_congr
  intro k hk
  exact writeWord_outside _ _ _ _ (by omega)

/-- A word whose four bytes are zero is zero. -/
theorem readWord_zero (ram : Ram) (a : Nat) (h : ∀ k, k < 4 → ram (a + k) = 0) :
    readWord ram a = 0 := by
  unfold readWord
  have h0 := h 0 (by omega)
  rw [Nat.add_zero] at h0
  rw [h0, h 1 (by omega), h 2 (by omega), h 3 (by omega)]

/-- A store of the word 0 leaves zero bytes. -/
theorem writeWord_zero_inside (ram : Ram) (a i : Nat) (h1 : a ≤ i) (h2 : i < a + 4) :
    writeWord ram a 0 i = 0 := by
  unfold writeWord
  rw [memWrite_inside _ _ _ _ h1 (by simpa using h2)]
  have : i - a = 0 ∨ i - a = 1 ∨ i - a = 2 ∨ i - a = 3 := by omega
  rcases this with e | e | e | e <;> rw [e] <;> rfl

/-- The reset state only depends on the bytes of the struct. -/
theorem ResetState_congr (L : StateLayout) (ram_amt : Nat) (r1 r2 : Ram) (p : Nat)
    (hL : L.valid) (hsize : L.size ≤ ram_amt)
    (h : ∀ i, ram_amt - L.size ≤ i → i < ram_amt → r2 i = r1 i)
    (hs : ResetState L ram_amt r1 p) : ResetState L ram_amt r2 p := by
  obtain ⟨v1, v2, v3, v4, v5, v6⟩ := hL
  obtain ⟨s1, s2, s3, s4, s5⟩ := hs
  refine ⟨?_, ?_, ?_, ?_, ?_⟩
  · rw [← s1]; apply readWord_congr; intro k hk; exact h _ (by omega) (by omega)
  · rw [← s2]; apply readWord_congr; intro k hk; exact h _ (by omega) (by omega)
  · rw [← s3]; apply readWord_congr; intro k hk; exact h _ (by omega) (by omega)
  · rw [← s4]; apply readWord_congr; intro k hk; exact h _ (by omega) (by omega)
  · intro i h1 h2 h3 h4 h5
    rw [h i h1 h2]
    exact s5 i h1 h2 h3 h4 h5

/-- On a struct of zero bytes the reset statements produce the reset state,
and they change no byte below the struct. -/
theorem resetCore_state (L : StateLayout) (ram_amt : Nat) (ram : Ram) (p : Nat)
    (hL : L.valid) (hsize : L.size ≤ ram_amt) (hp : p < 2147483648)
    (hz : ∀ i, ram_amt - L.size ≤ i → i < ram_amt → ram i = 0) :
    ∃ ram2, resetCore L ram_amt ram (p : Int) = LoadExit.loaded ram2 (p : Int) ∧
      ResetState L ram_amt ram2 p ∧ ∀ i, i < ram_amt - L.size → ram2 i = ram i := by
  obtain ⟨ram2, e, hb⟩ := resetCore_below L ram_amt ram (p : Int) hsize
  refine ⟨ram2, e, ?_, hb⟩
  unfold resetCore at e
  simp only [hsize, if_true, LoadExit.loaded.injEq, and_true] at e
  obtain ⟨v1, v2, v3, v4, v5, v6⟩ := hL
  have hx : (if (p : Int) ≠ 0 then toU32 ((p : Int) + MINIRV32_RAM_IMAGE_OFFSET) else 0)
      = (if p = 0 then 0 else 0x80000000 + p) := by
    by_cases h0 : p = 0
    · simp [h0]
    · have : (p : Int) ≠ 0 := by omega
      simp only [this, h0, ne_eq, not_false_eq_true, if_true, if_false]
      unfold toU32 MINIRV32_RAM_IMAGE_OFFSET
      omega
  have hx2 : (if p = 0 then 0 else 0x80000000 + p) % 4294967296
      = (if p = 0 then 0 else 0x80000000 + p) := by
    split_ifs <;> omega
  rw [hx] at e
  subst e
  refine ⟨?_, ?_, ?_, ?_, ?_⟩
  · rw [readWord_writeWord_outside _ _ _ _ (by omega),
      readWord_writeWord_outside _ _ _ _ (by omega),
      readWord_writeWord_outside _ _ _ _ (by omega), readWord_writeWord]
    rfl
  · rw [readWord_writeWord_outside _ _ _ _ (by omega),
      readWord_writeWord_outside _ _ _ _ (by omega), readWord_writeWord]
  · rw [readWord_writeWord_outside _ _ _ _ (by omega), readWord_writeWord, hx2]
  · rw [readWord_writeWord]
    have hz0 : readWord (writeWord (writeWord (writeWord ram (ram_amt - L.size + L.pc)
        MINIRV32_RAM_IMAGE_OFFSET) (ram_amt - L.size + L.regs + 4 * 10) 0)
        (ram_amt - L.size + L.regs + 4 * 11) (if p = 0 then 0 else 0x80000000 + p))
        (ram_amt - L.size + L.extraflags) = 0 := by
      rw [readWord_writeWord_outside _ _ _ _ (by omega),
        readWord_writeWord_outside _ _ _ _ (by omega),
        readWord_writeWord_outside _ _ _ _ (by omega)]
      exact readWord_zero _ _ (fun k hk => hz _ (by omega) (by omega))
    rw [hz0]
    rfl
  · intro i h1 h2 h3 h4 h5
    rw [writeWord_outside _ _ _ _ (by omega), writeWord_outside _ _ _ _ (by omega)]
    by_cases h10 : ram_amt - L.size + L.regs + 4 * 10 ≤ i ∧
        i < ram_amt - L.size + L.regs + 4 * 10 + 4
    · exact writeWord_zero_inside _ _ _ h10.1 h10.2
    · rw [writeWord_outside _ _ _ _ (by omega), writeWord_outside _ _ _ _ (by omega)]
      exact hz i h1 h2

/-- The DTB patch succeeds when the word at 0x13c of the DTB lies in the
image, and changes no byte from 0x140 bytes above `dtb_ptr` on; without the
built-in DTB it changes nothing. -/
theorem patchDtb_above (ram_amt : Nat) (opt : DtbOption) (ram : Ram) (p : Nat)
    (h : opt = DtbOption.default → p + 0x13c + 4 ≤ ram_amt) :
    ∃ ram3, patchDtb ram_amt opt ram (p : Int) = LoadExit.loaded ram3 (p : Int) ∧
      ∀ i, p + 0x13c + 4 ≤ i → ram3 i = ram i := by
  unfold patchDtb
  by_cases ho : opt = DtbOption.default
  · have hc : (0 : Int) ≤ (p : Int) ∧ (p : Int) + 0x13c + 4 ≤ ram_amt := by
      have := h ho
      omega
    have ht : (p : Int).toNat = p := by omega
    simp only [ho, if_true, hc, and_self, ht]
    split_ifs
    · exact ⟨_, rfl, fun i hi => writeWord_outside _ _ _ _ (by omega)⟩
    · exact ⟨_, rfl, fun i _ => rfl⟩
  · simp only [ho, if_false]
    exact ⟨_, rfl, fun i _ => rfl⟩

/-- An offset below the hart state that is less than 2^31 is not changed by
the conversion to `int`. -/
theorem toI32_offset (ram_amt len size : Nat) (h : len + size ≤ ram_amt)
    (hint : ram_amt - len - size < 2147483648) :
    toI32 ((ram_amt : Int) - len - size) = ((ram_amt - len - size : Nat) : Int) := by
  unfold toI32
  have e : (ram_amt : Int) - len - size = ((ram_amt - len - size : Nat) : Int) := by omega
  rw [e]
  have : ((ram_amt - len - size : Nat) : Int) % 4294967296
      = ((ram_amt - len - size : Nat) : Int) := by omega
  rw [this]
  simp only [ite_eq_left_iff]
  omega

/-- When the DTB fits and its offset fits the `int` `dtb_ptr`, the DTB block
succeeds, sets `dtb_ptr` as expected and changes no byte of the hart state. -/
theorem loadDtb_fits (L : StateLayout) (ram_amt : Nat) (opt : DtbOption) (dtb : List Nat)
    (cmd : Option (List Nat)) (ram : Ram) (pin : Int)
    (hint : opt.ptr dtb L ram_amt < 2147483648) (hsize : L.size ≤ ram_amt)
    (hfit : opt.fits dtb L ram_amt) (hin : opt = DtbOption.disable → pin = 0) :
    ∃ ram1, loadDtb L ram_amt opt dtb cmd ram pin
        = LoadExit.loaded ram1 ((opt.ptr dtb L ram_amt : Nat) : Int) ∧
      (∀ i, ram_amt - L.size ≤ i → ram1 i = ram i) ∧
      (opt = DtbOption.default → opt.ptr dtb L ram_amt + 0x13c + 4 ≤ ram_amt - L.size) := by
  cases opt with
  | disable =>
    refine ⟨ram, ?_, fun _ _ => rfl, fun h => by cases h⟩
    simp [loadDtb, DtbOption.ptr, hin rfl]
  | file contents =>
    cases contents with
    | none => exact absurd hfit (by simp [DtbOption.fits])
    | some d =>
      obtain ⟨hd1, hd2⟩ : 1 ≤ d.length ∧ d.length + L.size ≤ ram_amt := hfit
      have hint2 : ram_amt - d.length - L.size < 2147483648 := hint
      have hp := toI32_offset ram_amt d.length L.size hd2 hint2
      refine ⟨memWrite ram (ram_amt - d.length - L.size) d, ?_,
        fun i hi => memWrite_outside _ _ _ _ (by omega), fun h => by cases h⟩
      unfold loadDtb
      simp only [hp, DtbOption.ptr]
      have hne : ¬ d.length = 0 := by omega
      simp only [hne, if_false]
      unfold copyAt
      have hc : (0 : Int) ≤ ((ram_amt - d.length - L.size : Nat) : Int) ∧
          ((ram_amt - d.length - L.size : Nat) : Int) + d.length ≤ ram_amt := by omega
      simp [hc]
  | default =>
    obtain ⟨hd1, hd2⟩ : 0x13c + 4 ≤ dtb.length ∧ dtb.length + L.size ≤ ram_amt := hfit
    have hint2 : ram_amt - dtb.length - L.size < 2147483648 := hint
    have h1 := loadDtb_default L ram_amt dtb cmd ram pin hd2 hint2 hd1
    refine ⟨_, h1, ?_, fun _ => ?_⟩
    · intro i hi
      cases cmd with
      | none => exact memWrite_outside _ _ _ _ (by omega)
      | some c =>
        simp only
        have hl := strncpy_length c 54
        rw [memWrite_outside _ _ _ _ (by rw [hl]; omega),
          memWrite_outside _ _ _ _ (by omega)]
    · simp only [DtbOption.ptr]
      omega

/-- The load-and-reset sequence, entered with any image contents and with
`dtb_ptr` equal to 0 if the DTB is disabled, succeeds and leaves the reset
state, provided the image file is not empty and ends below the hart state, the
DTB fits, and its offset is below 2^31. -/
theorem loadAndReset_ok (L : StateLayout) (ram_amt : Nat) (img : List Nat) (opt : DtbOption)
    (dtb : List Nat) (cmd : Option (List Nat)) (ram0 : Ram) (pin : Int)
    (hL : L.valid) (hptr : opt.ptr dtb L ram_amt < 2147483648)
    (himg1 : 1 ≤ img.length) (himg2 : img.length + L.size ≤ ram_amt)
    (hfit : opt.fits dtb L ram_amt) (hin : opt = DtbOption.disable → pin = 0) :
    ∃ ram3, loadAndReset L ram_amt (some img) opt dtb cmd ram0 pin
        = LoadExit.loaded ram3 ((opt.ptr dtb L ram_amt : Nat) : Int) ∧
      ResetState L ram_amt ram3 (opt.ptr dtb L ram_amt) := by
  have hsize : L.size ≤ ram_amt := by omega
  -- the image file
  have hI : loadImageFile ram_amt (some img) ram0
      = LoadExit.loaded (memWrite (memset0 ram0 ram_amt) 0 img) 0 := by
    unfold loadImageFile
    have h1 : ¬ img.length > ram_amt := by omega
    have h2 : ¬ img.length = 0 := by omega
    simp only [h1, h2, if_false]
  have hIz : ∀ i, ram_amt - L.size ≤ i → i < ram_amt →
      memWrite (memset0 ram0 ram_amt) 0 img i = 0 := by
    intro i h1 h2
    rw [memWrite_outside _ _ _ _ (by omega)]
    simp [memset0, h2]
  -- the DTB
  obtain ⟨ram1, hD, hDz, hDp⟩ := loadDtb_fits L ram_amt opt dtb cmd
    (memWrite (memset0 ram0 ram_amt) 0 img) pin hptr hsize hfit hin
  -- the reset
  obtain ⟨ram2, hR, hRs, _⟩ := resetCore_state L ram_amt ram1 (opt.ptr dtb L ram_amt) hL hsize
    hptr (fun i h1 h2 => by rw [hDz i h1]; exact hIz i h1 h2)
  -- the patch
  obtain ⟨ram3, hP, hPz⟩ := patchDtb_above ram_amt opt ram2 (opt.ptr dtb L ram_amt)
    (fun h => by have := hDp h; omega)
  refine ⟨ram3, ?_, ?_⟩
  · unfold loadAndReset
    rw [hI]
    simp only
    unfold placeDtbAndReset
    rw [hD]
    simp only
    rw [hR]
    simp only
    exact hP
  · apply ResetState_congr L ram_amt ram2 ram3 _ hL hsize _ hRs
    intro i h1 _
    by_cases ho : opt = DtbOption.default
    · exact hPz i (by have := hDp ho; omega)
    · have : patchDtb ram_amt opt ram2 ((opt.ptr dtb L ram_amt : Nat) : Int)
          = LoadExit.loaded ram2 ((opt.ptr dtb L ram_amt : Nat) : Int) := by
        simp [patchDtb, ho]
      rw [this] at hP
      cases hP
      rfl

/-- A text that starts with NUL prints nothing. -/
theorem print_text_gdi_nul (con : Console) (t : List Nat) :
    print_text_gdi con (0 :: t) = con := by
  simp [print_text_gdi, print_text_gdi_loop]

/-- With more fuel than bytes up to the end of RAM the scan for the end of the
string returns: it stops at the first zero byte or at `ram_amt`, every byte
before is non-zero, and every index it read is below `ram_amt`. -/
theorem csrStringEnd_spec (ram_amt : Nat) (image : Ram) (hram : ram_amt < 4294967296)
    (fuel : Nat) :
    ∀ (p : Nat) (reads : List Nat), p ≤ ram_amt → ram_amt - p < fuel →
      ∃ e rs, csrStringEnd ram_amt image fuel p reads = some (e, rs ++ reads) ∧
        p ≤ e ∧ e ≤ ram_amt ∧ (∀ i, p ≤ i → i < e → image i % 256 ≠ 0) ∧
        (e = ram_amt ∨ image e % 256 = 0) ∧ ∀ i ∈ rs, i < ram_amt := by
  induction fuel with
  | zero => intro p reads _ h; omega
  | succ fuel ih =>
    intro p reads hp hf
    unfold csrStringEnd
    by_cases hlt : p < ram_amt
    · simp only [hlt, if_true]
      by_cases hz : image p % 256 = 0
      · simp only [hz, ne_eq, not_true_eq_false, if_false]
        refine ⟨p, [p], rfl, le_refl _, hp, ?_, Or.inr hz, ?_⟩
        · intro i h1 h2; omega
        · intro i hi
          rw [List.mem_singleton] at hi
          omega
      · simp only [hz, ne_eq, not_false_eq_true, if_true]
        have hu : u32 (p + 1) = p + 1 := by unfold u32; omega
        rw [hu]
        obtain ⟨e, rs, he, h1, h2, h3, h4, h5⟩ := ih (p + 1) (p :: reads) (by omega) (by omega)
        refine ⟨e, rs ++ [p], ?_, by omega, h2, ?_, h4, ?_⟩
        · rw [he, List.append_assoc]; rfl
        · intro i hi1 hi2
          by_cases hip : i = p
          · rw [hip]; exact hz
          · exact h3 i (by omega) hi2
        · intro i hi
          rcases List.mem_append.mp hi with hi | hi
          · exact h5 i hi
          · rw [List.mem_singleton] at hi
            omega
    · simp only [hlt, if_false]
      refine ⟨p, [], rfl, le_refl _, hp, ?_, Or.inl (by omega), ?_⟩
      · intro i h1 h2; omega
      · intro i hi; cases hi

/-- A result that only differs from the state before in the console keeps the
image, the hart state and the keyboard. -/
theorem CsrWrite_frame (h : Host) (image : Ram) (con : Console) (rs ws : List Nat) :
    (CsrWrite.mk (Host.mk h.core con h.kb) image rs ws).image = image ∧
    (CsrWrite.mk (Host.mk h.core con h.kb) image rs ws).host.core = h.core ∧
    (CsrWrite.mk (Host.mk h.core con h.kb) image rs ws).host.kb = h.kb :=
  ⟨rfl, rfl, rfl⟩

/-- A call of `HandleOtherCSRWrite` leaves the image, the hart state and the
keyboard as they were, whatever the CSR number. -/
theorem HandleOtherCSRWrite_frame (ram_amt : Nat) (h : Host) (image : Ram)
    (csrno value : Nat) :
    (HandleOtherCSRWrite ram_amt h image csrno value).image = image ∧
    (HandleOtherCSRWrite ram_amt h image csrno value).host.core = h.core ∧
    (HandleOtherCSRWrite ram_amt h image csrno value).host.kb = h.kb := by
  unfold HandleOtherCSRWrite
  by_cases c1 : csrno = 0x136
  · rw [if_pos c1]
    exact CsrWrite_frame h image _ _ _
  rw [if_neg c1]
  by_cases c2 : csrno = 0x137
  · rw [if_pos c2]
    exact CsrWrite_frame h image _ _ _
  rw [if_neg c2]
  by_cases c3 : csrno = 0x138
  · rw [if_pos c3]
    by_cases hinv : toU32 ((value : Int) - MINIRV32_RAM_IMAGE_OFFSET) ≥ ram_amt
    · simp only [hinv, if_true]
      exact ⟨trivial, trivial, trivial⟩
    · simp only [hinv, if_false]
      cases csrStringEnd ram_amt image
            (ram_amt - toU32 ((value : Int) - MINIRV32_RAM_IMAGE_OFFSET) + 1)
            (toU32 ((value : Int) - MINIRV32_RAM_IMAGE_OFFSET)) [] with
      | none => exact CsrWrite_frame h image h.con _ _
      | some r =>
        by_cases hl : r.1 - toU32 ((value : Int) - MINIRV32_RAM_IMAGE_OFFSET) > 0
        · simp only [hl, if_true]
          exact ⟨trivial, trivial, trivial⟩
        · simp only [hl, if_false]
          exact ⟨trivial, trivial, trivial⟩
  rw [if_neg c3]
  by_cases c4 : csrno = 0x139
  · rw [if_pos c4]
    exact CsrWrite_frame h image _ _ _
  · rw [if_neg c4]
    exact CsrWrite_frame h image h.con _ _

/-- C11: for every image of `ram_amt` bytes and every 32-bit `value`,
`HandleOtherCSRWrite(image, 0x138, value)` reads `image` only at indices below
`ram_amt` and writes its buffer only at indices 0..511. When `(value -
0x80000000) mod 2^32 >= ram_amt` it prints "DEBUG PASSED INVALID PTR" and reads
nothing; otherwise it prints (passes to `print_text_gdi`) the bytes of the
image from `value - 0x80000000` up to, not including, the first zero byte or
the end of RAM, cut to at most 511 bytes. For every `csrno` the call leaves the
image, the hart state and the keyboard unchanged. -/
theorem HandleOtherCSRWrite_debug_string (ram_amt : Nat) (h : Host) (image : Ram)
    (value : Nat) (hram : ram_amt < 4294967296) :
    (∀ i ∈ (HandleOtherCSRWrite ram_amt h image 0x138 value).imageReads, i < ram_amt) ∧
    (∀ j ∈ (HandleOtherCSRWrite ram_amt h image 0x138 value).bufWrites, j ≤ 511) ∧
    (toU32 ((value : Int) - 0x80000000) ≥ ram_amt →
      (HandleOtherCSRWrite ram_amt h image 0x138 value).imageReads = [] ∧
      (HandleOtherCSRWrite ram_amt h image 0x138 value).host.con
        = print_text_gdi h.con (ascii "DEBUG PASSED INVALID PTR" ++ [0])) ∧
    (toU32 ((value : Int) - 0x80000000) < ram_amt →
      ∃ len : Nat, toU32 ((value : Int) - 0x80000000) + len ≤ ram_amt ∧
        (∀ i, toU32 ((value : Int) - 0x80000000) ≤ i →
          i < toU32 ((value : Int) - 0x80000000) + len → image i % 256 ≠ 0) ∧
        (toU32 ((value : Int) - 0x80000000) + len = ram_amt ∨
          image (toU32 ((value : Int) - 0x80000000) + len) % 256 = 0) ∧
        (HandleOtherCSRWrite ram_amt h image 0x138 value).host.con
          = print_text_gdi h.con
            ((List.range' (toU32 ((value : Int) - 0x80000000)) (min len 511)).map
              (fun i => image i % 256) ++ [0])) ∧
    (∀ csrno : Nat,
      (HandleOtherCSRWrite ram_amt h image csrno value).image = image ∧
      (HandleOtherCSRWrite ram_amt h image csrno value).host.core = h.core ∧
      (HandleOtherCSRWrite ram_amt h image csrno value).host.kb = h.kb) := by
  have hoff : ((value : Int) - MINIRV32_RAM_IMAGE_OFFSET) = (value : Int) - 0x80000000 := by
    simp [MINIRV32_RAM_IMAGE_OFFSET]
  have hframe := fun csrno => HandleOtherCSRWrite_frame ram_amt h image csrno value
  have n1 : ¬ ((0x138 : Nat) = 0x136) := by decide
  have n2 : ¬ ((0x138 : Nat) = 0x137) := by decide
  generalize hps : toU32 ((value : Int) - 0x80000000) = ptrstart
  by_cases hinv : ptrstart ≥ ram_amt
  · -- the pointer is outside the image
    have e : HandleOtherCSRWrite ram_amt h image 0x138 value =
        CsrWrite.mk
          (Host.mk h.core (print_text_gdi h.con (ascii "DEBUG PASSED INVALID PTR" ++ [0])) h.kb)
          image [] [] := by
      unfold HandleOtherCSRWrite
      simp only [n1, n2, hoff, hps, hinv, if_true, if_false]
    refine ⟨?_, ?_, fun _ => ?_, fun hlt => absurd hinv (by omega), hframe⟩
    · rw [e]; intro i hi; cases hi
    · rw [e]; intro j hj; cases hj
    · rw [e]; exact ⟨rfl, rfl⟩
  · -- the pointer is inside the image
    obtain ⟨e, rs, hscan, h1, h2, h3, h4, h5⟩ := csrStringEnd_spec ram_amt image hram
      (ram_amt - ptrstart + 1) ptrstart [] (by omega) (by omega)
    rw [List.append_nil] at hscan
    by_cases hlen : e - ptrstart > 0
    · have hmin : (if e - ptrstart < 512 - 1 then e - ptrstart else 512 - 1)
          = min (e - ptrstart) 511 := by
        split_ifs <;> omega
      have hr : HandleOtherCSRWrite ram_amt h image 0x138 value =
          CsrWrite.mk
            (Host.mk h.core (print_text_gdi h.con
              ((List.range' ptrstart (min (e - ptrstart) 511)).map (fun i => image i % 256)
                ++ [0])) h.kb)
            image ((List.range' ptrstart (min (e - ptrstart) 511)).reverse ++ rs)
            (min (e - ptrstart) 511 :: (List.range (min (e - ptrstart) 511)).reverse) := by
        unfold HandleOtherCSRWrite
        simp only [n1, n2, hoff, hps, hinv, if_false, hscan, hlen, if_true, hmin]
      refine ⟨?_, ?_, fun hge => absurd hge hinv, fun _ => ?_, hframe⟩
      · rw [hr]
        intro i hi
        rcases List.mem_append.mp hi with hi | hi
        · rw [List.mem_reverse, List.mem_range'_1] at hi
          omega
        · exact h5 i hi
      · rw [hr]
        intro j hj
        rcases List.mem_cons.mp hj with hj | hj
        · omega
        · rw [List.mem_reverse, List.mem_range] at hj
          omega
      · refine ⟨e - ptrstart, by omega, ?_, ?_, ?_⟩
        · intro i hi1 hi2
          exact h3 i hi1 (by omega)
        · have : ptrstart + (e - ptrstart) = e := by omega
          rw [this]
          exact h4
        · rw [hr]
    · have hr : HandleOtherCSRWrite ram_amt h image 0x138 value =
          CsrWrite.mk h image rs [] := by
        unfold HandleOtherCSRWrite
        simp only [n1, n2, hoff, hps, hinv, if_false, hscan, hlen, if_true]
      have he : e = ptrstart := by omega
      refine ⟨?_, ?_, fun hge => absurd hge hinv, fun _ => ?_, hframe⟩
      · rw [hr]; exact h5
      · rw [hr]; intro j hj; cases hj
      · refine ⟨0, by omega, ?_, ?_, ?_⟩
        · intro i hi1 hi2; omega
        · rw [Nat.add_zero, ← he]; exact h4
        · rw [hr]
          simp only [Nat.zero_min, List.range'_zero, List.map_nil, List.nil_append]
          exact (print_text_gdi_nul h.con []).symm

/-- Witness for `HandleOtherCSRWrite_debug_string`: the text "Hi" at offset 4
of a 16-byte image. -/
theorem HandleOtherCSRWrite_debug_string_witness :
    (16 : Nat) < 4294967296 ∧
    (∀ i ∈ (HandleOtherCSRWrite 16 sampleHost hiImage 0x138 0x80000004).imageReads, i < 16) ∧
    (∀ j ∈ (HandleOtherCSRWrite 16 sampleHost hiImage 0x138 0x80000004).bufWrites, j ≤ 511) :=
  ⟨by decide,
    (HandleOtherCSRWrite_debug_string 16 sampleHost hiImage 0x80000004 (by decide)).1,
    (HandleOtherCSRWrite_debug_string 16 sampleHost hiImage 0x80000004 (by decide)).2.1⟩

/-! ### Reading numbers -/

/-- The character of a digit below 36 has that digit as its value. -/
theorem digitVal_digitChar (upper : Bool) (d : Nat) (hd : d < 36) :
    digitVal (digitChar upper d) = some d := by
  unfold digitChar digitVal
  by_cases h10 : d < 10
  · have h1 : 48 ≤ 48 + d ∧ 48 + d ≤ 57 := by omega
    simp [h10, h1]
  · cases upper
    · have h1 : ¬ (48 ≤ 87 + d ∧ 87 + d ≤ 57) := by omega
      have h2 : 97 ≤ 87 + d ∧ 87 + d ≤ 122 := by omega
      simp [h10, h1, h2]
    · have h1 : ¬ (48 ≤ 55 + d ∧ 55 + d ≤ 57) := by omega
      have h2 : ¬ (97 ≤ 55 + d ∧ 55 + d ≤ 122) := by omega
      have h3 : 65 ≤ 55 + d ∧ 55 + d ≤ 90 := by omega
      simp [h10, h1, h2, h3]

/-- The character of a digit is at least `0` and at most `z`; it is `0` only
for the digit 0, and it is neither `x` nor `X` for a digit below 33. -/
theorem digitChar_range (upper : Bool) (d : Nat) (hd : d < 36) :
    48 ≤ digitChar upper d ∧ digitChar upper d ≤ 122 ∧
    (digitChar upper d = 48 → d = 0) ∧
    (d < 33 → digitChar upper d ≠ 120 ∧ digitChar upper d ≠ 88) ∧
    (d < 10 → digitChar upper d ≤ 57) := by
  unfold digitChar
  split_ifs <;> omega

/-- A run of digit characters is converted digit by digit. -/
theorem strtollDigits_map (upper : Bool) (b : Nat) (hb : b ≤ 36) :
    ∀ (ds : List Nat) (acc k : Nat), (∀ d ∈ ds, d < b) →
      strtollDigits b (ds.map (digitChar upper)) acc k
        = (ds.foldl (fun a d => a * b + d) acc, k + ds.length) := by
  intro ds
  induction ds with
  | nil => intro acc k _; simp [strtollDigits]
  | cons d ds ih =>
    intro acc k h
    have hd : d < b := h d (List.mem_cons_self _ _)
    simp only [List.map_cons, strtollDigits, digitVal_digitChar upper d (by omega), hd, if_true,
      List.foldl_cons, List.length_cons]
    rw [ih _ _ (fun x hx => h x (List.mem_cons_of_mem _ hx))]
    congr 1
    omega

/-- Where no valid digit stands in the text, nothing is converted. -/
theorem strtollDigits_none (b : Nat) (l : List Nat) (acc k : Nat)
    (h : ∀ c ∈ l, validDigit b c = false) : strtollDigits b l acc k = (acc, k) := by
  cases l with
  | nil => rfl
  | cons c cs =>
    have hc := h c (List.mem_cons_self _ _)
    unfold validDigit at hc
    unfold strtollDigits
    cases hv : digitVal c with
    | none => rfl
    | some v =>
      rw [hv] at hc
      simp only [decide_eq_false_iff_not] at hc
      simp only [hc, if_false]

/-- Digit characters do not start with a `0x` prefix. -/
theorem skipHexPrefix_digits (upper : Bool) (b : Nat) (ds : List Nat)
    (h : ∀ d ∈ ds, d < 33) :
    skipHexPrefix b (ds.map (digitChar upper)) = (0, ds.map (digitChar upper)) := by
  unfold skipHexPrefix
  by_cases hb : b = 16
  · simp only [hb, if_true]
    match ds, h with
    | [], _ => rfl
    | [_], _ => rfl
    | [_, _], _ => rfl
    | d0 :: d1 :: d2 :: t, h =>
      have h1 : d1 < 33 := h d1 (by simp)
      have hx := (digitChar_range upper d1 (by omega)).2.2.2.1 h1
      simp only [List.map_cons]
      have : ¬ (digitChar upper d0 = 48 ∧ (digitChar upper d1 = 120 ∨ digitChar upper d1 = 88) ∧
          validDigit 16 (digitChar upper d2) = true) := by
        intro hc
        rcases hc.2.1 with e | e
        · exact hx.1 e
        · exact hx.2 e
      simp only [this, if_false]
  · simp only [hb, if_false]

/-- The skipped prefix leaves a part of the text. -/
theorem skipHexPrefix_subset (b : Nat) (s : List Nat) :
    ∀ c ∈ (skipHexPrefix b s).2, c ∈ s := by
  unfold skipHexPrefix
  by_cases hb : b = 16
  · simp only [hb, if_true]
    match s with
    | [] => intro c hc; exact hc
    | [_] => intro c hc; exact hc
    | [_, _] => intro c hc; exact hc
    | c0 :: x :: d :: t =>
      simp only
      split_ifs
      · intro c hc
        exact List.mem_cons_of_mem _ (List.mem_cons_of_mem _ hc)
      · intro c hc; exact hc
  · simp only [hb, if_false]
    intro c hc; exact hc

/-- A text without any digit valid in the base is not converted: `strtoll`
leaves `endptr` at `nptr`. -/
theorem strtoll_no_digit (s : List Nat) (b : Nat) (h : ∀ c ∈ s, validDigit b c = false) :
    (strtoll s b).2 = 0 := by
  unfold strtoll
  have hsub : ∀ c ∈ (skipHexPrefix b ((s.dropWhile isspace).drop
      (if (s.dropWhile isspace).head? = some 45 ∨ (s.dropWhile isspace).head? = some 43
        then 1 else 0))).2, validDigit b c = false := by
    intro c hc
    apply h
    exact (List.dropWhile_sublist isspace).subset
      (List.mem_of_mem_drop (skipHexPrefix_subset _ _ c hc))
  have hz := strtollDigits_none b _ 0 0 hsub
  simp only [hz, if_true]

/-- A non-empty run of digit characters, whose value is below 2^63, is
converted to its value, and `endptr` moves behind it. -/
theorem strtoll_digits (upper : Bool) (b : Nat) (hb : b ≤ 33) (ds : List Nat)
    (hne : ds ≠ []) (hlt : ∀ d ∈ ds, d < b)
    (hv : ds.foldl (fun a d => a * b + d) 0 < 9223372036854775808) :
    strtoll (ds.map (digitChar upper)) b
      = (((ds.foldl (fun a d => a * b + d) 0 : Nat) : Int), ds.length) := by
  cases ds with
  | nil => exact absurd rfl hne
  | cons d0 rest =>
    have hd0 : d0 < b := hlt d0 (List.mem_cons_self _ _)
    obtain ⟨r1, r2, _, _, _⟩ := digitChar_range upper d0 (by omega)
    have hsp : isspace (digitChar upper d0) = false := by
      unfold isspace
      have a1 : ¬ digitChar upper d0 = 32 := by omega
      have a2 : ¬ digitChar upper d0 ≤ 13 := by omega
      simp [a1, a2]
    have hdw : List.dropWhile isspace (List.map (digitChar upper) (d0 :: rest))
        = List.map (digitChar upper) (d0 :: rest) := by
      simp only [List.map_cons, List.dropWhile_cons, hsp, Bool.false_eq_true, if_false]
    have htw : List.takeWhile isspace (List.map (digitChar upper) (d0 :: rest)) = [] := by
      simp only [List.map_cons, List.takeWhile_cons, hsp, Bool.false_eq_true, if_false]
    have hhead : (List.map (digitChar upper) (d0 :: rest)).head? = some (digitChar upper d0) :=
      rfl
    have hn45 : ¬ (some (digitChar upper d0) = some 45) := by
      intro e; injection e with e; omega
    have hn43 : ¬ (some (digitChar upper d0) = some 43) := by
      intro e; injection e with e; omega
    have hpre := skipHexPrefix_digits upper b (d0 :: rest) (fun d hd => by
      have := hlt d hd; omega)
    have hdig := strtollDigits_map upper b (by omega) (d0 :: rest) 0 0 hlt
    unfold strtoll
    simp only [hdw, htw, hhead, hn45, hn43, or_self, if_false, List.drop_zero, hpre, hdig,
      decide_False, Bool.false_eq_true, List.length_nil, List.length_cons, Nat.zero_add,
      Nat.add_zero]
    have hlen : ¬ (rest.length + 1 = 0) := by omega
    simp only [hlen, if_false]
    have c1 : ¬ (((List.foldl (fun a d => a * b + d) 0 (d0 :: rest) : Nat) : Int)
        > 9223372036854775807) := by omega
    have c2 : ¬ (((List.foldl (fun a d => a * b + d) 0 (d0 :: rest) : Nat) : Int)
        < -9223372036854775808) := by omega
    simp only [c1, c2, if_false]

/-- Reading digits from the most significant one on gives the number the
digits stand for. -/
theorem foldr_digits_eq_ofDigits (b : Nat) (l : List Nat) :
    l.foldr (fun d a => a * b + d) 0 = Nat.ofDigits b l := by
  induction l with
  | nil => rfl
  | cons h t ih =>
    rw [List.foldr_cons, ih, Nat.ofDigits_cons, Nat.mul_comm, Nat.add_comm]

/-- The digits of a numeral: there is a first digit, which is 0 only for the
number 0, every digit is below the base, and their value is the number. -/
theorem numeralDigits_spec (b n : Nat) (hb : 1 < b) :
    (∃ d0 rest, numeralDigits b n = d0 :: rest ∧ (d0 = 0 → n = 0)) ∧
    (∀ d ∈ numeralDigits b n, d < b) ∧
    (numeralDigits b n).foldl (fun a d => a * b + d) 0 = n := by
  unfold numeralDigits
  by_cases h0 : n = 0
  · simp only [h0, if_true]
    refine ⟨⟨0, [], rfl, fun _ => trivial⟩, ?_, ?_⟩
    · intro d hd
      rw [List.mem_singleton] at hd
      omega
    · simp
  · simp only [h0, if_false]
    have hne : Nat.digits b n ≠ [] := Nat.digits_ne_nil_iff_ne_zero.mpr h0
    have hlast := Nat.getLast_digit_ne_zero b h0
    refine ⟨?_, ?_, ?_⟩
    · cases hr : (Nat.digits b n).reverse with
      | nil => exact absurd (List.reverse_eq_nil_iff.mp hr) hne
      | cons d0 rest =>
        refine ⟨d0, rest, rfl, fun hd0 => ?_⟩
        exfalso
        apply hlast
        have h1 : (Nat.digits b n).reverse.head? = some d0 := by rw [hr]; rfl
        rw [List.head?_reverse, List.getLast?_eq_getLast _ hne] at h1
        injection h1 with h1
        rw [h1, hd0]
    · intro d hd
      exact Nat.digits_lt_base hb (List.mem_reverse.mp hd)
    · rw [List.foldl_reverse, foldr_digits_eq_ofDigits, Nat.ofDigits_digits]

/-- The end of `SimpleReadNumberInt` returns the number on its numeral. -/
theorem readNumberTail_numeral (upper : Bool) (b n : Nat) (d : Int) (hb : 1 < b)
    (hb33 : b ≤ 33) (hn : n < 9223372036854775808) :
    readNumberTail (numeral upper b n) b d = (n : Int) := by
  obtain ⟨⟨d0, rest, hd, _⟩, hlt, hval⟩ := numeralDigits_spec b n hb
  have hne : numeralDigits b n ≠ [] := by rw [hd]; exact List.cons_ne_nil _ _
  have hs := strtoll_digits upper b hb33 (numeralDigits b n) hne hlt (by rw [hval]; exact hn)
  rw [hval] at hs
  unfold readNumberTail numeral
  rw [hs]
  have hl : ¬ ((numeralDigits b n).length = 0) := by
    rw [hd]; simp
  simp only [hl, if_false]
  unfold toI64 toU64
  have e1 : ((n : Int) % 18446744073709551616).toNat = n := by omega
  rw [e1]
  have e2 : n % 18446744073709551616 = n := by omega
  rw [e2]
  have e3 : n < 9223372036854775808 := hn
  simp only [e3, if_true]

/-- The end of `SimpleReadNumberInt` returns the default when the text has no
digit valid in the radix. -/
theorem readNumberTail_no_digit (s : List Nat) (b : Nat) (d : Int)
    (h : ∀ c ∈ s, validDigit b c = false) : readNumberTail s b d = d := by
  unfold readNumberTail
  simp only [strtoll_no_digit s b h, if_true]

/-- How `SimpleReadNumberInt` selects the radix: a text that starts with
neither NUL nor `0` is read in base 10; after `0x` the rest is read in base 16,
after `0b` in base 2, and after a `0` followed by anything else but NUL the
rest is read in base 8. -/
theorem SimpleReadNumberInt_radix (d : Int) (c : Nat) (t : List Nat) :
    (c ≠ 0 → c ≠ 48 → SimpleReadNumberInt (some (c :: t)) d = readNumberTail (c :: t) 10 d) ∧
    SimpleReadNumberInt (some (48 :: 120 :: t)) d = readNumberTail t 16 d ∧
    SimpleReadNumberInt (some (48 :: 98 :: t)) d = readNumberTail t 2 d ∧
    (c ≠ 0 → c ≠ 120 → c ≠ 98 →
      SimpleReadNumberInt (some (48 :: c :: t)) d = readNumberTail (c :: t) 8 d) := by
  refine ⟨?_, ?_, ?_, ?_⟩
  · intro h0 h48
    simp [SimpleReadNumberInt, h0, h48]
  · simp [SimpleReadNumberInt]
  · simp [SimpleReadNumberInt]
  · intro h0 hx hb
    simp [SimpleReadNumberInt, h0, hx, hb]

/-- The count of converted digits never decreases. -/
theorem strtollDigits_count (b : Nat) :
    ∀ (l : List Nat) (acc k : Nat), k ≤ (strtollDigits b l acc k).2 := by
  intro l
  induction l with
  | nil => intro acc k; exact le_refl _
  | cons c cs ih =>
    intro acc k
    unfold strtollDigits
    cases digitVal c with
    | none => exact le_refl _
    | some v =>
      simp only
      split_ifs
      · exact le_trans (Nat.le_succ k) (ih _ _)
      · exact le_refl _

/-- No digit is converted exactly when the text does not begin with a digit
valid in the base. -/
theorem strtollDigits_zero_iff (b : Nat) (l : List Nat) :
    (strtollDigits b l 0 0).2 = 0 ↔ ∀ c, l.head? = some c → validDigit b c = false := by
  cases l with
  | nil => simp [strtollDigits]
  | cons c cs =>
    simp only [List.head?_cons, Option.some.injEq, forall_eq']
    unfold strtollDigits validDigit
    cases digitVal c with
    | none => simp
    | some v =>
      simp only
      by_cases hv : v < b
      · simp only [hv, if_true, decide_True]
        have := strtollDigits_count b cs (0 * b + v) (0 + 1)
        constructor
        · intro h; omega
        · intro h; exact absurd h (by decide)
      · simp only [hv, if_false, decide_False]

/-- The `0x` that `strtoll` skips in base 16 stands in front of a digit and
begins with one, so skipping it does not change whether a digit comes first. -/
theorem skipHexPrefix_head (b : Nat) (s : List Nat) :
    (∀ c, (skipHexPrefix b s).2.head? = some c → validDigit b c = false) ↔
      (∀ c, s.head? = some c → validDigit b c = false) := by
  unfold skipHexPrefix
  by_cases hb : b = 16
  · subst hb
    simp only [if_true]
    match s with
    | [] => exact Iff.rfl
    | [_] => exact Iff.rfl
    | [_, _] => exact Iff.rfl
    | c0 :: x :: d :: t =>
      simp only
      by_cases hp : c0 = 48 ∧ (x = 120 ∨ x = 88) ∧ validDigit 16 d = true
      · rw [if_pos hp]
        obtain ⟨h48, _, hd⟩ := hp
        simp only [List.head?_cons, Option.some.injEq, forall_eq']
        constructor
        · intro h; rw [hd] at h; exact absurd h (by decide)
        · intro h; rw [h48] at h; exact absurd h (by decide)
      · rw [if_neg hp]
  · simp only [hb, if_false]

/-- The character the digits of `strtoll` start at is the one behind the white
space and the sign. -/
theorem strtoll_subject_head (s : List Nat) :
    ((s.dropWhile isspace).drop
      (if (s.dropWhile isspace).head? = some 45 ∨ (s.dropWhile isspace).head? = some 43
        then 1 else 0)).head? = afterSpaceAndSign s := by
  unfold afterSpaceAndSign
  cases s.dropWhile isspace with
  | nil => simp
  | cons c t =>
    by_cases hc : c = 45 ∨ c = 43
    · simp [hc]
    · simp [hc]

/-- The model of `strtoll` leaves `endptr` at `nptr` exactly when the text,
after white space and a sign, does not go on with a valid digit. -/
theorem strtoll_no_conversion_iff (s : List Nat) (b : Nat) :
    (strtoll s b).2 = 0 ↔ startsNumber b s = false := by
  have h1 : (strtoll s b).2 = 0 ↔
      (strtollDigits b (skipHexPrefix b ((s.dropWhile isspace).drop
        (if (s.dropWhile isspace).head? = some 45 ∨ (s.dropWhile isspace).head? = some 43
          then 1 else 0))).2 0 0).2 = 0 := by
    by_cases hz : (strtollDigits b (skipHexPrefix b ((s.dropWhile isspace).drop
        (if (s.dropWhile isspace).head? = some 45 ∨ (s.dropWhile isspace).head? = some 43
          then 1 else 0))).2 0 0).2 = 0
    · unfold strtoll
      simp only [hz, if_true]
    · unfold strtoll
      simp only [hz, if_false, iff_false]
      omega
  rw [h1, strtollDigits_zero_iff, skipHexPrefix_head, strtoll_subject_head]
  unfold startsNumber
  cases afterSpaceAndSign s with
  | none => simp
  | some c => simp

/-- The end of `SimpleReadNumberInt` returns the default exactly on a text
that does not start a number; on any other text it returns the value `strtoll`
converts, stored in the `uint64_t` `ret` and returned as `int64_t`. -/
theorem readNumberTail_default (s : List Nat) (b : Nat) (d : Int) :
    (startsNumber b s = false → readNumberTail s b d = d) ∧
    (startsNumber b s = true → readNumberTail s b d = toI64 (toU64 (strtoll s b).1)) := by
  have hiff := strtoll_no_conversion_iff s b
  unfold readNumberTail
  constructor
  · intro h
    simp only [hiff.mpr h, if_true]
  · intro h
    have hne : ¬ ((strtoll s b).2 = 0) := by
      intro hz
      rw [hiff.mp hz] at h
      exact absurd h (by decide)
    simp only [hne, if_false]

/-- A text that starts with the digit 0 starts a number in every base from
1 on; a text that starts with NUL does not. -/
theorem startsNumber_head (b : Nat) (t : List Nat) :
    (1 ≤ b → startsNumber b (48 :: t) = true) ∧ startsNumber b (0 :: t) = false := by
  constructor
  · intro hb
    have h0 : (0 : Nat) < b := by omega
    simp [startsNumber, afterSpaceAndSign, isspace, validDigit, digitVal, h0]
  · simp [startsNumber, afterSpaceAndSign, isspace, validDigit, digitVal]

/-- C12 (as stated, refuted): in "-5" no digit follows the (empty) prefix, the
character there being the sign, but with the default 777 the function returns
-5: `strtoll` skips white space and one sign before the digits. In the same way
" 42" gives 42 and "0x 1f" gives 31, not the default. -/
theorem SimpleReadNumberInt_sign_and_space :
    (validDigit 10 45 = false ∧ SimpleReadNumberInt (some [45, 53]) 777 = -5 ∧
      SimpleReadNumberInt (some [45, 53]) 777 ≠ 777) ∧
    (validDigit 10 32 = false ∧ SimpleReadNumberInt (some [32, 52, 50]) 777 = 42 ∧
      SimpleReadNumberInt (some [32, 52, 50]) 777 ≠ 777) ∧
    (validDigit 16 32 = false ∧ SimpleReadNumberInt (some [48, 120, 32, 49, 102]) 777 = 31 ∧
      SimpleReadNumberInt (some [48, 120, 32, 49, 102]) 777 ≠ 777) := by
  decide

/-- The numerals of 255: "255", "ff" or "FF", "11111111" and "377". -/
theorem numeral_255 :
    numeral false 10 255 = [50, 53, 53] ∧ numeral false 16 255 = [102, 102] ∧
    numeral true 16 255 = [70, 70] ∧
    numeral false 2 255 = [49, 49, 49, 49, 49, 49, 49, 49] ∧
    numeral false 8 255 = [51, 55, 55] := by
  simp [numeral, numeralDigits, digitChar]

/-- C12 (amended): for every default `d` and every `n` with `0 <= n < 2^63`,
`SimpleReadNumberInt` returns `n` on the decimal numeral of `n`, on `0x`
followed by the hexadecimal numeral of `n` (letters of either case), on `0b`
followed by the binary numeral and on `0` followed by the octal numeral; it
returns 0 on `0`; and it returns `d` on a null pointer, on the empty string and
on every string in which, behind the optional prefix (`0x`, `0b` or `0`), then
any white space and then one optional sign, the next character is not a digit
valid in the selected radix, such as `0x`, `09`, `abc`, `a1`, `0xg1` and `-`.
On every other string, where a valid digit stands at that place, the result is
the number `strtoll` converts from the text behind the prefix, whatever the
default: -5 on `-5`, 42 on ` 42` and 31 on `0x 1f`. -/
theorem SimpleReadNumberInt_numerals (d : Int) (n : Nat) (upper : Bool)
    (hn : n < 9223372036854775808) :
    SimpleReadNumberInt (some (numeral upper 10 n)) d = (n : Int) ∧
    SimpleReadNumberInt (some (48 :: 120 :: numeral upper 16 n)) d = (n : Int) ∧
    SimpleReadNumberInt (some (48 :: 98 :: numeral upper 2 n)) d = (n : Int) ∧
    SimpleReadNumberInt (some (48 :: numeral upper 8 n)) d = (n : Int) ∧
    SimpleReadNumberInt (some [48]) d = 0 ∧
    SimpleReadNumberInt none d = d ∧
    SimpleReadNumberInt (some []) d = d ∧
    (∀ t : List Nat, startsNumber 10 t = false → SimpleReadNumberInt (some t) d = d) ∧
    (∀ t : List Nat, startsNumber 16 t = false →
      SimpleReadNumberInt (some (48 :: 120 :: t)) d = d) ∧
    (∀ t : List Nat, startsNumber 2 t = false →
      SimpleReadNumberInt (some (48 :: 98 :: t)) d = d) ∧
    (∀ (c : Nat) (t : List Nat), c ≠ 0 → c ≠ 120 → c ≠ 98 → startsNumber 8 (c :: t) = false →
      SimpleReadNumberInt (some (48 :: c :: t)) d = d) ∧
    (∀ (c : Nat) (t : List Nat), c ≠ 48 → startsNumber 10 (c :: t) = true →
      SimpleReadNumberInt (some (c :: t)) d = toI64 (toU64 (strtoll (c :: t) 10).1)) ∧
    (∀ t : List Nat, startsNumber 16 t = true →
      SimpleReadNumberInt (some (48 :: 120 :: t)) d = toI64 (toU64 (strtoll t 16).1)) ∧
    (∀ t : List Nat, startsNumber 2 t = true →
      SimpleReadNumberInt (some (48 :: 98 :: t)) d = toI64 (toU64 (strtoll t 2).1)) ∧
    (∀ (c : Nat) (t : List Nat), c ≠ 0 → c ≠ 120 → c ≠ 98 → startsNumber 8 (c :: t) = true →
      SimpleReadNumberInt (some (48 :: c :: t)) d = toI64 (toU64 (strtoll (c :: t) 8).1)) ∧
    SimpleReadNumberInt (some [48, 120]) d = d ∧
    SimpleReadNumberInt (some [48, 57]) d = d ∧
    SimpleReadNumberInt (some [97, 98, 99]) d = d ∧
    SimpleReadNumberInt (some [97, 49]) d = d ∧
    SimpleReadNumberInt (some [48, 120, 103, 49]) d = d ∧
    SimpleReadNumberInt (some [45]) d = d ∧
    SimpleReadNumberInt (some [45, 53]) d = -5 ∧
    SimpleReadNumberInt (some [32, 52, 50]) d = 42 ∧
    SimpleReadNumberInt (some [48, 120, 32, 49, 102]) d = 31 := by
  have hzero : SimpleReadNumberInt (some [48]) d = 0 := by simp [SimpleReadNumberInt]
  have hdec : ∀ t : List Nat, startsNumber 10 t = false →
      SimpleReadNumberInt (some t) d = d := by
    intro t ht
    cases t with
    | nil => simp [SimpleReadNumberInt]
    | cons c t =>
      by_cases h0 : c = 0
      · simp [SimpleReadNumberInt, h0]
      · have h48 : c ≠ 48 := by
          intro e
          rw [e, (startsNumber_head 10 t).1 (by decide)] at ht
          exact absurd ht (by decide)
        rw [(SimpleReadNumberInt_radix d c t).1 h0 h48]
        exact (readNumberTail_default _ _ _).1 ht
  have hhex : ∀ t : List Nat, startsNumber 16 t = false →
      SimpleReadNumberInt (some (48 :: 120 :: t)) d = d := by
    intro t ht
    rw [(SimpleReadNumberInt_radix d 0 t).2.1]
    exact (readNumberTail_default _ _ _).1 ht
  have hbin : ∀ t : List Nat, startsNumber 2 t = false →
      SimpleReadNumberInt (some (48 :: 98 :: t)) d = d := by
    intro t ht
    rw [(SimpleReadNumberInt_radix d 0 t).2.2.1]
    exact (readNumberTail_default _ _ _).1 ht
  have hoct : ∀ (c : Nat) (t : List Nat), c ≠ 0 → c ≠ 120 → c ≠ 98 →
      startsNumber 8 (c :: t) = false →
      SimpleReadNumberInt (some (48 :: c :: t)) d = d := by
    intro c t h0 hx hb ht
    rw [(SimpleReadNumberInt_radix d c t).2.2.2 h0 hx hb]
    exact (readNumberTail_default _ _ _).1 ht
  have hdecv : ∀ (c : Nat) (t : List Nat), c ≠ 48 → startsNumber 10 (c :: t) = true →
      SimpleReadNumberInt (some (c :: t)) d = toI64 (toU64 (strtoll (c :: t) 10).1) := by
    intro c t h48 ht
    have h0 : c ≠ 0 := by
      intro e0
      rw [e0, (startsNumber_head 10 t).2] at ht
      exact absurd ht (by decide)
    rw [(SimpleReadNumberInt_radix d c t).1 h0 h48]
    exact (readNumberTail_default _ _ _).2 ht
  have hhexv : ∀ t : List Nat, startsNumber 16 t = true →
      SimpleReadNumberInt (some (48 :: 120 :: t)) d = toI64 (toU64 (strtoll t 16).1) := by
    intro t ht
    rw [(SimpleReadNumberInt_radix d 0 t).2.1]
    exact (readNumberTail_default _ _ _).2 ht
  refine ⟨?_, ?_, ?_, ?_, hzero, rfl, ?_, hdec, hhex, hbin, hoct, hdecv, hhexv, ?_, ?_,
    ?_, ?_, ?_, ?_, ?_, ?_, ?_, ?_, ?_⟩
  · -- decimal
    obtain ⟨⟨d0, rest, hd, hd0⟩, hlt, _⟩ := numeralDigits_spec 10 n (by decide)
    by_cases h0 : n = 0
    · have : numeral upper 10 n = [48] := by
        simp [numeral, numeralDigits, h0, digitChar]
      rw [this, hzero, h0]
      rfl
    · have hne : d0 ≠ 0 := fun e => h0 (hd0 e)
      have hd10 : d0 < 10 := hlt d0 (by rw [hd]; exact List.mem_cons_self _ _)
      obtain ⟨r1, _, r3, _, _⟩ := digitChar_range upper d0 (by omega)
      have hs : numeral upper 10 n = digitChar upper d0 :: rest.map (digitChar upper) := by
        unfold numeral; rw [hd]; rfl
      have hr := readNumberTail_numeral upper 10 n d (by decide) (by decide) hn
      rw [hs] at hr ⊢
      rw [(SimpleReadNumberInt_radix d _ _).1 (by omega) (fun e => hne (r3 e))]
      exact hr
  · -- hexadecimal
    rw [(SimpleReadNumberInt_radix d 0 _).2.1]
    exact readNumberTail_numeral upper 16 n d (by decide) (by decide) hn
  · -- binary
    rw [(SimpleReadNumberInt_radix d 0 _).2.2.1]
    exact readNumberTail_numeral upper 2 n d (by decide) (by decide) hn
  · -- octal
    obtain ⟨⟨d0, rest, hd, _⟩, hlt, _⟩ := numeralDigits_spec 8 n (by decide)
    have hd8 : d0 < 8 := hlt d0 (by rw [hd]; exact List.mem_cons_self _ _)
    obtain ⟨r1, _, _, _, r5⟩ := digitChar_range upper d0 (by omega)
    have r5 := r5 (by omega)
    have hs : numeral upper 8 n = digitChar upper d0 :: rest.map (digitChar upper) := by
      unfold numeral; rw [hd]; rfl
    have hr := readNumberTail_numeral upper 8 n d (by decide) (by decide) hn
    rw [hs] at hr ⊢
    rw [(SimpleReadNumberInt_radix d _ _).2.2.2 (by omega) (by omega) (by omega)]
    exact hr
  · simp [SimpleReadNumberInt]
  · intro t ht
    rw [(SimpleReadNumberInt_radix d 0 t).2.2.1]
    exact (readNumberTail_default _ _ _).2 ht
  · intro c t h0 hx hb ht
    rw [(SimpleReadNumberInt_radix d c t).2.2.2 h0 hx hb]
    exact (readNumberTail_default _ _ _).2 ht
  · exact hhex [] (by decide)
  · exact hoct 57 [] (by decide) (by decide) (by decide) (by decide)
  · exact hdec [97, 98, 99] (by decide)
  · exact hdec [97, 49] (by decide)
  · exact hhex [103, 49] (by decide)
  · exact hdec [45] (by decide)
  · rw [hdecv 45 [53] (by decide) (by decide)]
    decide
  · rw [hdecv 32 [52, 50] (by decide) (by decide)]
    decide
  · rw [hhexv [32, 49, 102] (by decide)]
    decide

/-- Witness for `SimpleReadNumberInt_numerals`: the number 255 with the
default 7 and lower-case digits. -/
theorem SimpleReadNumberInt_numerals_witness :
    (255 : Nat) < 9223372036854775808 ∧
    SimpleReadNumberInt (some (numeral false 10 255)) 7 = 255 ∧
    SimpleReadNumberInt (some (48 :: 120 :: numeral false 16 255)) 7 = 255 ∧
    startsNumber 10 [97, 49] = false ∧
    SimpleReadNumberInt (some [97, 49]) 7 = 7 :=
  ⟨by decide,
    (SimpleReadNumberInt_numerals 7 255 false (by decide)).1,
    (SimpleReadNumberInt_numerals 7 255 false (by decide)).2.1,
    by decide,
    (SimpleReadNumberInt_numerals 7 255 false (by decide)).2.2.2.2.2.2.2.1 [97, 49] (by decide)⟩

end MiniRV32
